import Mathlib

/-!
Verification of the geometric track-comparison core of the runners-toolbox
repository.  The JavaScript source (map component, `part_005`) is shallowly
embedded: JavaScript numbers are idealized as real numbers, arrays as lists,
and loops as recursive functions.  `Math.atan2` is modelled by an explicit
piecewise definition (signed zeros, which real numbers lack, are not
modelled).
-/

namespace GpxCompare

open Classical

/-! ## Bounding boxes and the iterative merge (part_005 lines 499-559) -/

/-- An axis-aligned lat/lon rectangle, as produced by the difference-box
code.  Coordinates are idealized JavaScript numbers. -/
structure Box where
  minLat : ℝ
  maxLat : ℝ
  minLon : ℝ
  maxLon : ℝ

attribute [ext] Box

/-- The `tolerance` constant of `boxesOverlap` (0.0001 degrees). -/
def boxTolerance : ℝ := 0.0001

/-- Function `boxesOverlap` from part_005 lines 501-507: the two rectangles intersect
once each is enlarged by the tolerance. -/
def boxesOverlap (box1 box2 : Box) : Prop :=
  ¬(box1.maxLat < box2.minLat - boxTolerance ∨
    box1.minLat > box2.maxLat + boxTolerance ∨
    box1.maxLon < box2.minLon - boxTolerance ∨
    box1.minLon > box2.maxLon + boxTolerance)

/-- Function `mergeTwoBoxes` from part_005 lines 510-517: componentwise union. -/
def mergeTwoBoxes (box1 box2 : Box) : Box :=
  { minLat := min box1.minLat box2.minLat
    maxLat := max box1.maxLat box2.maxLat
    minLon := min box1.minLon box2.minLon
    maxLon := max box1.maxLon box2.maxLon }

/-- Inner loop of one pass of `mergeOverlappingBoxes` (lines 539-549): scan
the boxes after the current one left to right, absorbing into the current box
every box that overlaps it (the current box grows as it absorbs); return the
grown current box together with the boxes that were not absorbed, in order. -/
noncomputable def absorb (c : Box) : List Box → Box × List Box
  | [] => (c, [])
  | b :: rest =>
    if boxesOverlap c b then absorb (mergeTwoBoxes c b) rest
    else
      let r := absorb c rest
      (r.1, b :: r.2)

theorem absorb_snd_length (c : Box) (l : List Box) :
    (absorb c l).2.length ≤ l.length := by
  induction l generalizing c with
  | nil => simp [absorb]
  | cons b rest ih =>
    by_cases h : boxesOverlap c b
    · simp only [absorb, if_pos h]
      exact le_trans (ih (mergeTwoBoxes c b)) (Nat.le_succ _)
    · simp only [absorb, if_neg h, List.length_cons]
      exact Nat.succ_le_succ (ih c)

/-- One full pass of the merge loop (lines 527-556, one iteration of the
`while (changed)` loop): repeatedly take the first unused box, absorb into it
all later overlapping boxes, emit it, and continue with the leftovers. -/
noncomputable def mergePass (l : List Box) : List Box :=
  match l with
  | [] => []
  | b :: rest => (absorb b rest).1 :: mergePass (absorb b rest).2
termination_by l.length
decreasing_by
  simp only [List.length_cons]
  exact Nat.lt_succ_of_le (absorb_snd_length b rest)

theorem mergePass_length (l : List Box) : (mergePass l).length ≤ l.length := by
  induction l using mergePass.induct with
  | case1 => simp [mergePass]
  | case2 b rest ih =>
    simp only [mergePass, List.length_cons]
    exact Nat.succ_le_succ (le_trans ih (absorb_snd_length b rest))

/-- The `while (changed)` loop of `mergeOverlappingBoxes` (lines 524-556).
A pass performed a merge exactly when it shortened the list, which is when
the JavaScript `changed` flag is set. -/
noncomputable def mergeLoop (m : List Box) : List Box :=
  if (mergePass m).length < m.length then mergeLoop (mergePass m) else m
termination_by m.length

/-- Function `mergeOverlappingBoxes` from part_005 lines 520-559. -/
noncomputable def mergeOverlappingBoxes (boxes : List Box) : List Box :=
  if boxes.length = 0 then [] else mergeLoop boxes

/-! ### A pass that does not shrink the list is the identity, and its input
is pairwise non-overlapping. -/

theorem absorb_no_merge (c : Box) (l : List Box)
    (h : (absorb c l).2.length = l.length) :
    absorb c l = (c, l) ∧ ∀ b ∈ l, ¬ boxesOverlap c b := by
  induction l generalizing c with
  | nil => simp [absorb]
  | cons b rest ih =>
    by_cases hov : boxesOverlap c b
    · exfalso
      rw [show absorb c (b :: rest) = absorb (mergeTwoBoxes c b) rest from by
        simp [absorb, hov]] at h
      have hb2 := absorb_snd_length (mergeTwoBoxes c b) rest
      simp only [List.length_cons] at h
      omega
    · rw [show absorb c (b :: rest) =
          ((absorb c rest).1, b :: (absorb c rest).2) from by
        simp [absorb, hov]] at h ⊢
      simp only [List.length_cons, Nat.succ_inj] at h
      obtain ⟨heq, hno⟩ := ih c h
      refine ⟨by simp [heq], ?_⟩
      intro x hx
      rcases List.mem_cons.mp hx with rfl | hx
      · exact hov
      · exact hno x hx

theorem mergePass_no_merge (l : List Box)
    (h : (mergePass l).length = l.length) :
    mergePass l = l ∧ l.Pairwise (fun a b => ¬ boxesOverlap a b) := by
  induction l using mergePass.induct with
  | case1 => simp [mergePass]
  | case2 b rest ih =>
    rw [show mergePass (b :: rest) =
        (absorb b rest).1 :: mergePass (absorb b rest).2 from by
      rw [mergePass]] at h ⊢
    simp only [List.length_cons, Nat.succ_inj] at h
    have h1 : (mergePass (absorb b rest).2).length ≤ (absorb b rest).2.length :=
      mergePass_length _
    have h2 : (absorb b rest).2.length ≤ rest.length := absorb_snd_length _ _
    have habs : (absorb b rest).2.length = rest.length := by omega
    obtain ⟨heq, hno⟩ := absorb_no_merge b rest habs
    have h3 : (mergePass (absorb b rest).2).length = (absorb b rest).2.length := by
      omega
    obtain ⟨hfix, hpw⟩ := ih h3
    rw [heq] at hfix hpw ⊢
    exact ⟨by simp [hfix], List.Pairwise.cons (fun x hx => hno x hx) hpw⟩

theorem mergeLoop_fixed (m : List Box) :
    mergePass (mergeLoop m) = mergeLoop m := by
  induction m using mergeLoop.induct with
  | case1 x hlt ih =>
    rw [show mergeLoop x = mergeLoop (mergePass x) from by
      rw [mergeLoop]; simp [hlt]]
    exact ih
  | case2 x hlt =>
    rw [show mergeLoop x = x from by rw [mergeLoop]; simp [hlt]]
    have hle := mergePass_length x
    have : (mergePass x).length = x.length := by omega
    exact (mergePass_no_merge x this).1

theorem mergeLoop_pairwise (m : List Box) :
    (mergeLoop m).Pairwise (fun a b => ¬ boxesOverlap a b) := by
  have hfix := mergeLoop_fixed m
  have : (mergePass (mergeLoop m)).length = (mergeLoop m).length := by
    rw [hfix]
  exact (mergePass_no_merge _ this).2

/-! ### Coverage: every input box is contained in some output box. -/

/-- Box `b` lies inside `c` (containment of rectangles, componentwise). -/
def boxContains (c b : Box) : Prop :=
  c.minLat ≤ b.minLat ∧ b.maxLat ≤ c.maxLat ∧
  c.minLon ≤ b.minLon ∧ b.maxLon ≤ c.maxLon

theorem boxContains_refl (b : Box) : boxContains b b :=
  ⟨le_refl _, le_refl _, le_refl _, le_refl _⟩

theorem boxContains_trans {a b c : Box}
    (h1 : boxContains b a) (h2 : boxContains c b) : boxContains c a :=
  ⟨le_trans h2.1 h1.1, le_trans h1.2.1 h2.2.1,
   le_trans h2.2.2.1 h1.2.2.1, le_trans h1.2.2.2 h2.2.2.2⟩

theorem boxContains_merge_left (b1 b2 : Box) :
    boxContains (mergeTwoBoxes b1 b2) b1 :=
  ⟨min_le_left _ _, le_max_left _ _, min_le_left _ _, le_max_left _ _⟩

theorem boxContains_merge_right (b1 b2 : Box) :
    boxContains (mergeTwoBoxes b1 b2) b2 :=
  ⟨min_le_right _ _, le_max_right _ _, min_le_right _ _, le_max_right _ _⟩

theorem absorb_fst_contains (c : Box) (l : List Box) :
    boxContains (absorb c l).1 c := by
  induction l generalizing c with
  | nil => exact boxContains_refl c
  | cons b rest ih =>
    by_cases hov : boxesOverlap c b
    · rw [show absorb c (b :: rest) = absorb (mergeTwoBoxes c b) rest from by
        simp [absorb, hov]]
      exact boxContains_trans (boxContains_merge_left c b) (ih (mergeTwoBoxes c b))
    · rw [show absorb c (b :: rest) =
          ((absorb c rest).1, b :: (absorb c rest).2) from by
        simp [absorb, hov]]
      exact ih c

theorem absorb_covers (c : Box) (l : List Box) :
    ∀ b ∈ l, b ∈ (absorb c l).2 ∨ boxContains (absorb c l).1 b := by
  induction l generalizing c with
  | nil => simp
  | cons x rest ih =>
    intro b hb
    by_cases hov : boxesOverlap c x
    · rw [show absorb c (x :: rest) = absorb (mergeTwoBoxes c x) rest from by
        simp [absorb, hov]]
      rcases List.mem_cons.mp hb with rfl | hb
      · right
        exact boxContains_trans (boxContains_merge_right c b)
          (absorb_fst_contains (mergeTwoBoxes c b) rest)
      · exact ih (mergeTwoBoxes c x) b hb
    · rw [show absorb c (x :: rest) =
          ((absorb c rest).1, x :: (absorb c rest).2) from by
        simp [absorb, hov]]
      rcases List.mem_cons.mp hb with rfl | hb
      · left; simp
      · rcases ih c b hb with h | h
        · left; simp [h]
        · right; exact h

theorem mergePass_covers (l : List Box) :
    ∀ b ∈ l, ∃ c ∈ mergePass l, boxContains c b := by
  induction l using mergePass.induct with
  | case1 => simp
  | case2 x rest ih =>
    intro b hb
    rw [show mergePass (x :: rest) =
        (absorb x rest).1 :: mergePass (absorb x rest).2 from by rw [mergePass]]
    rcases List.mem_cons.mp hb with rfl | hb
    · exact ⟨(absorb b rest).1, by simp, absorb_fst_contains b rest⟩
    · rcases absorb_covers x rest b hb with h | h
      · obtain ⟨c, hc, hcon⟩ := ih b h
        exact ⟨c, by simp [hc], hcon⟩
      · exact ⟨(absorb x rest).1, by simp, h⟩

theorem mergeLoop_covers (m : List Box) :
    ∀ b ∈ m, ∃ c ∈ mergeLoop m, boxContains c b := by
  induction m using mergeLoop.induct with
  | case1 x hlt ih =>
    intro b hb
    obtain ⟨c, hc, hcon⟩ := mergePass_covers x b hb
    obtain ⟨d, hd, hdon⟩ := ih c hc
    rw [show mergeLoop x = mergeLoop (mergePass x) from by
      rw [mergeLoop]; simp [hlt]]
    exact ⟨d, hd, boxContains_trans hcon hdon⟩
  | case2 x hlt =>
    intro b hb
    rw [show mergeLoop x = x from by rw [mergeLoop]; simp [hlt]]
    exact ⟨b, hb, boxContains_refl b⟩

theorem boxesOverlap_symm {a b : Box} (h : boxesOverlap a b) : boxesOverlap b a := by
  unfold boxesOverlap at h ⊢
  push_neg at h ⊢
  obtain ⟨h1, h2, h3, h4⟩ := h
  refine ⟨by linarith, by linarith, by linarith, by linarith⟩

/-- C1: `mergeOverlappingBoxes` returns boxes that are pairwise
non-overlapping within the fixed tolerance of `1e-4` degrees on each axis
(in the sense of the code's own `boxesOverlap` test, in both argument
orders), and every input box is fully contained within some output box. -/
theorem mergeOverlappingBoxes_pairwise_disjoint_and_covers (boxes : List Box) :
    (mergeOverlappingBoxes boxes).Pairwise
      (fun a b => ¬ boxesOverlap a b ∧ ¬ boxesOverlap b a) ∧
    ∀ b ∈ boxes, ∃ c ∈ mergeOverlappingBoxes boxes, boxContains c b := by
  unfold mergeOverlappingBoxes
  by_cases hn : boxes.length = 0
  · simp_all
  · simp only [if_neg hn]
    constructor
    · exact (mergeLoop_pairwise boxes).imp
        (fun h => ⟨h, fun hba => h (boxesOverlap_symm hba)⟩)
    · exact mergeLoop_covers boxes

/-! ### Order independence via confluence.

One elementary merge (replace two overlapping boxes by their union) is a
rewrite step on the multiset of boxes.  The step relation has the diamond
property, so normal forms are unique; the algorithm's output is a normal
form reachable from the input multiset, hence depends only on the input
multiset. -/

theorem mergeTwoBoxes_comm (a b : Box) : mergeTwoBoxes a b = mergeTwoBoxes b a := by
  ext <;> simp [mergeTwoBoxes, min_comm, max_comm]

theorem mergeTwoBoxes_assoc (a b c : Box) :
    mergeTwoBoxes (mergeTwoBoxes a b) c = mergeTwoBoxes a (mergeTwoBoxes b c) := by
  ext <;> simp [mergeTwoBoxes, min_assoc, max_assoc]

theorem mergeTwoBoxes_right_swap (a b c : Box) :
    mergeTwoBoxes (mergeTwoBoxes a b) c = mergeTwoBoxes (mergeTwoBoxes a c) b := by
  rw [mergeTwoBoxes_assoc, mergeTwoBoxes_comm b c, ← mergeTwoBoxes_assoc]

theorem boxesOverlap_mono {b c x : Box} (hbc : boxContains c b)
    (h : boxesOverlap b x) : boxesOverlap c x := by
  unfold boxesOverlap at h ⊢
  push_neg at h ⊢
  obtain ⟨h1, h2, h3, h4⟩ := h
  obtain ⟨c1, c2, c3, c4⟩ := hbc
  exact ⟨by linarith, by linarith, by linarith, by linarith⟩

/-- One elementary merge step on a multiset of boxes: replace two
overlapping boxes by their union. -/
def MergeStep (s t : Multiset Box) : Prop :=
  ∃ a b r, s = a ::ₘ b ::ₘ r ∧ boxesOverlap a b ∧ t = mergeTwoBoxes a b ::ₘ r

theorem MergeStep.cons (x : Box) {s t : Multiset Box} (h : MergeStep s t) :
    MergeStep (x ::ₘ s) (x ::ₘ t) := by
  obtain ⟨a, b, r, hs, hov, ht⟩ := h
  refine ⟨a, b, x ::ₘ r, ?_, hov, ?_⟩
  · rw [hs, Multiset.cons_swap x a, Multiset.cons_swap x b]
  · rw [ht, Multiset.cons_swap]

theorem mergeStep_rtg_cons (x : Box) {s t : Multiset Box}
    (h : Relation.ReflTransGen MergeStep s t) :
    Relation.ReflTransGen MergeStep (x ::ₘ s) (x ::ₘ t) := by
  induction h with
  | refl => exact .refl
  | tail _ hstep ih => exact ih.tail (hstep.cons x)

theorem mergeStep_diamond {s t1 t2 : Multiset Box}
    (h1 : MergeStep s t1) (h2 : MergeStep s t2) :
    t1 = t2 ∨ ∃ u, MergeStep t1 u ∧ MergeStep t2 u := by
  obtain ⟨a1, b1, r1, hs1, hov1, ht1⟩ := h1
  obtain ⟨a2, b2, r2, hs2, hov2, ht2⟩ := h2
  subst hs1 ht1 ht2
  rcases Multiset.cons_eq_cons.mp hs2 with ⟨rfl, hrest⟩ | ⟨hne, cs, hcs1, hcs2⟩
  · rcases Multiset.cons_eq_cons.mp hrest with ⟨rfl, rfl⟩ | ⟨hne, ds, hds1, hds2⟩
    · exact Or.inl rfl
    · -- pairs (a1,b1) and (a1,b2) share a1
      refine Or.inr ⟨mergeTwoBoxes (mergeTwoBoxes a1 b1) b2 ::ₘ ds, ?_, ?_⟩
      · exact ⟨mergeTwoBoxes a1 b1, b2, ds, by rw [hds1],
          boxesOverlap_mono (boxContains_merge_left a1 b1) hov2, rfl⟩
      · refine ⟨mergeTwoBoxes a1 b2, b1, ds, by rw [hds2],
          boxesOverlap_mono (boxContains_merge_left a1 b2) hov1, ?_⟩
        rw [mergeTwoBoxes_right_swap a1 b1 b2]
  · rcases Multiset.cons_eq_cons.mp hcs1 with ⟨rfl, rfl⟩ | ⟨hne1, ds, hds1, hds2⟩
    · rcases Multiset.cons_eq_cons.mp hcs2 with ⟨rfl, rfl⟩ | ⟨hne2, es, hes1, hes2⟩
      · -- same unordered pair, opposite order
        rw [mergeTwoBoxes_comm b2 b1]
        exact Or.inl rfl
      · -- pairs (a1,b1) and (b1,b2) share b1
        refine Or.inr ⟨mergeTwoBoxes (mergeTwoBoxes a1 b1) b2 ::ₘ es, ?_, ?_⟩
        · exact ⟨mergeTwoBoxes a1 b1, b2, es, by rw [hes2],
            boxesOverlap_mono (boxContains_merge_right a1 b1) hov2, rfl⟩
        · refine ⟨mergeTwoBoxes b1 b2, a1, es, by rw [hes1],
            boxesOverlap_mono (boxContains_merge_left b1 b2)
              (boxesOverlap_symm hov1), ?_⟩
          have hAC : mergeTwoBoxes (mergeTwoBoxes b1 b2) a1 =
              mergeTwoBoxes (mergeTwoBoxes a1 b1) b2 := by
            rw [mergeTwoBoxes_right_swap b1 b2 a1, mergeTwoBoxes_comm b1 a1]
          rw [hAC]
    · rw [hds2] at hcs2
      subst hds1
      rcases Multiset.cons_eq_cons.mp hcs2 with ⟨rfl, rfl⟩ | ⟨hne2, es, hes1, hes2⟩
      · -- pairs (b2,b1) and (a2,b2) share b2
        refine Or.inr ⟨mergeTwoBoxes (mergeTwoBoxes b2 b1) a2 ::ₘ ds, ?_, ?_⟩
        · exact ⟨mergeTwoBoxes b2 b1, a2, ds, rfl,
            boxesOverlap_mono (boxContains_merge_left b2 b1)
              (boxesOverlap_symm hov2), rfl⟩
        · refine ⟨mergeTwoBoxes a2 b2, b1, ds, rfl,
            boxesOverlap_mono (boxContains_merge_right a2 b2) hov1, ?_⟩
          have hAC : mergeTwoBoxes (mergeTwoBoxes a2 b2) b1 =
              mergeTwoBoxes (mergeTwoBoxes b2 b1) a2 := by
            rw [mergeTwoBoxes_comm (mergeTwoBoxes b2 b1) a2,
              ← mergeTwoBoxes_assoc a2 b2 b1]
          rw [hAC]
      · rcases Multiset.cons_eq_cons.mp hes2 with ⟨rfl, rfl⟩ | ⟨hne3, fs, hfs1, hfs2⟩
        · -- pairs (a1,b1) and (a2,b1) share b1
          refine Or.inr ⟨mergeTwoBoxes (mergeTwoBoxes a1 b1) a2 ::ₘ ds, ?_, ?_⟩
          · exact ⟨mergeTwoBoxes a1 b1, a2, ds, rfl,
              boxesOverlap_mono (boxContains_merge_right a1 b1)
                (boxesOverlap_symm hov2), rfl⟩
          · refine ⟨mergeTwoBoxes a2 b1, a1, ds, by rw [hes1],
              boxesOverlap_mono (boxContains_merge_right a2 b1)
                (boxesOverlap_symm hov1), ?_⟩
            have hAC : mergeTwoBoxes (mergeTwoBoxes a2 b1) a1 =
                mergeTwoBoxes (mergeTwoBoxes a1 b1) a2 := by
              rw [mergeTwoBoxes_right_swap a2 b1 a1, mergeTwoBoxes_comm a2 a1,
                mergeTwoBoxes_right_swap a1 a2 b1]
            rw [hAC]
        · -- fully disjoint pairs (a1,b1) and (a2,b2)
          subst hfs1 hfs2 hes1
          refine Or.inr
            ⟨mergeTwoBoxes a1 b1 ::ₘ mergeTwoBoxes a2 b2 ::ₘ fs, ?_, ?_⟩
          · refine ⟨a2, b2, mergeTwoBoxes a1 b1 ::ₘ fs, ?_, hov2, ?_⟩
            · rw [Multiset.cons_swap (mergeTwoBoxes a1 b1) a2,
                Multiset.cons_swap (mergeTwoBoxes a1 b1) b2]
            · rw [Multiset.cons_swap]
          · refine ⟨a1, b1, mergeTwoBoxes a2 b2 ::ₘ fs, ?_, hov1, rfl⟩
            rw [Multiset.cons_swap (mergeTwoBoxes a2 b2) a1,
              Multiset.cons_swap (mergeTwoBoxes a2 b2) b1]

/-- No merge step applies: the multiset is a normal form. -/
def MergeNormal (s : Multiset Box) : Prop := ∀ t, ¬ MergeStep s t

theorem mergeStep_cr : ∀ a b c : Multiset Box, MergeStep a b → MergeStep a c →
    ∃ d, Relation.ReflGen MergeStep b d ∧ Relation.ReflTransGen MergeStep c d := by
  intro a b c h1 h2
  rcases mergeStep_diamond h1 h2 with rfl | ⟨u, hu1, hu2⟩
  · exact ⟨b, .refl, .refl⟩
  · exact ⟨u, .single hu1, .single hu2⟩

theorem mergeNormal_no_rtg {s t : Multiset Box} (hs : MergeNormal s)
    (h : Relation.ReflTransGen MergeStep s t) : s = t := by
  induction h with
  | refl => rfl
  | tail h1 h2 ih => exact absurd (ih ▸ h2) (hs _)

theorem mergeNormal_unique {s n1 n2 : Multiset Box}
    (h1 : Relation.ReflTransGen MergeStep s n1)
    (h2 : Relation.ReflTransGen MergeStep s n2)
    (hn1 : MergeNormal n1) (hn2 : MergeNormal n2) : n1 = n2 := by
  obtain ⟨d, hd1, hd2⟩ := Relation.church_rosser mergeStep_cr h1 h2
  rw [mergeNormal_no_rtg hn1 hd1, mergeNormal_no_rtg hn2 hd2]

theorem absorb_reach (c : Box) (l : List Box) :
    Relation.ReflTransGen MergeStep (c ::ₘ (l : Multiset Box))
      ((absorb c l).1 ::ₘ ((absorb c l).2 : Multiset Box)) := by
  induction l generalizing c with
  | nil =>
    simp only [absorb]
    exact Relation.ReflTransGen.refl
  | cons b rest ih =>
    by_cases hov : boxesOverlap c b
    · rw [show absorb c (b :: rest) = absorb (mergeTwoBoxes c b) rest from by
        simp [absorb, hov]]
      refine Relation.ReflTransGen.head ?_ (ih (mergeTwoBoxes c b))
      exact ⟨c, b, ↑rest, by simp, hov, rfl⟩
    · rw [show absorb c (b :: rest) =
          ((absorb c rest).1, b :: (absorb c rest).2) from by
        simp [absorb, hov]]
      have h1 := mergeStep_rtg_cons b (ih c)
      rw [show (c ::ₘ ((b :: rest : List Box) : Multiset Box)) =
          b ::ₘ c ::ₘ (rest : Multiset Box) from by
        simp only [Multiset.cons_coe]
        exact Multiset.cons_swap c b ↑rest]
      rw [show ((absorb c rest).1 ::ₘ ((b :: (absorb c rest).2 : List Box) : Multiset Box)) =
          b ::ₘ (absorb c rest).1 ::ₘ ((absorb c rest).2 : Multiset Box) from by
        simp only [Multiset.cons_coe]
        exact Multiset.cons_swap (absorb c rest).1 b ↑(absorb c rest).2]
      exact h1

theorem mergePass_reach (l : List Box) :
    Relation.ReflTransGen MergeStep (l : Multiset Box) (mergePass l : Multiset Box) := by
  induction l using mergePass.induct with
  | case1 =>
    simp [mergePass]
    exact Relation.ReflTransGen.refl
  | case2 b rest ih =>
    rw [show mergePass (b :: rest) =
        (absorb b rest).1 :: mergePass (absorb b rest).2 from by rw [mergePass]]
    have h1 : ((b :: rest : List Box) : Multiset Box) = b ::ₘ (rest : Multiset Box) := by simp
    have h2 : (((absorb b rest).1 :: mergePass (absorb b rest).2 : List Box) : Multiset Box) =
        (absorb b rest).1 ::ₘ (mergePass (absorb b rest).2 : Multiset Box) := by simp
    rw [h1, h2]
    exact (absorb_reach b rest).trans (mergeStep_rtg_cons (absorb b rest).1 ih)

theorem mergeLoop_reach (m : List Box) :
    Relation.ReflTransGen MergeStep (m : Multiset Box) (mergeLoop m : Multiset Box) := by
  induction m using mergeLoop.induct with
  | case1 x hlt ih =>
    rw [show mergeLoop x = mergeLoop (mergePass x) from by
      rw [mergeLoop]; simp [hlt]]
    exact (mergePass_reach x).trans ih
  | case2 x hlt =>
    rw [show mergeLoop x = x from by rw [mergeLoop]; simp [hlt]]

theorem merge_reach (boxes : List Box) :
    Relation.ReflTransGen MergeStep (boxes : Multiset Box)
      (mergeOverlappingBoxes boxes : Multiset Box) := by
  unfold mergeOverlappingBoxes
  by_cases hn : boxes.length = 0
  · rw [List.length_eq_zero] at hn
    subst hn
    simp
    exact Relation.ReflTransGen.refl
  · simp only [if_neg hn]
    exact mergeLoop_reach boxes

theorem pairwise_mergeNormal (l : List Box)
    (h : l.Pairwise (fun a b => ¬ boxesOverlap a b)) :
    MergeNormal (l : Multiset Box) := by
  intro t ht
  obtain ⟨a, b, r, hs, hov, _⟩ := ht
  rw [← Multiset.coe_toList r, Multiset.cons_coe, Multiset.cons_coe] at hs
  have hperm : l.Perm (a :: b :: r.toList) := Multiset.coe_eq_coe.mp hs
  have h2 := (hperm.pairwise_iff
    (fun hxy hyx => hxy (boxesOverlap_symm hyx))).mp h
  exact (List.pairwise_cons.mp h2).1 b (List.mem_cons_self b _) hov

theorem merge_pairwise (boxes : List Box) :
    (mergeOverlappingBoxes boxes).Pairwise (fun a b => ¬ boxesOverlap a b) := by
  unfold mergeOverlappingBoxes
  by_cases hn : boxes.length = 0
  · simp [hn]
  · simp only [if_neg hn]
    exact mergeLoop_pairwise boxes

theorem mergePass_of_merge_fixed (xs : List Box) :
    mergePass (mergeOverlappingBoxes xs) = mergeOverlappingBoxes xs := by
  unfold mergeOverlappingBoxes
  by_cases hn : xs.length = 0
  · simp [hn, mergePass]
  · simp only [if_neg hn]
    exact mergeLoop_fixed xs

theorem merge_of_fixed (l : List Box) (hfix : mergePass l = l) :
    mergeOverlappingBoxes l = l := by
  unfold mergeOverlappingBoxes
  by_cases hn : l.length = 0
  · rw [List.length_eq_zero] at hn
    simp [hn]
  · simp only [if_neg hn]
    rw [mergeLoop]
    simp [hfix]

/-- C2: the box merge is idempotent (re-merging its own output returns the
output unchanged, in fact as the very same list) and order-independent
(permuting the input yields the same multiset — in particular the same
set — of merged boxes). -/
theorem mergeOverlappingBoxes_idempotent_and_order_independent :
    (∀ xs : List Box,
      mergeOverlappingBoxes (mergeOverlappingBoxes xs) = mergeOverlappingBoxes xs) ∧
    (∀ xs ys : List Box, xs.Perm ys →
      (mergeOverlappingBoxes xs : Multiset Box) = (mergeOverlappingBoxes ys : Multiset Box)) := by
  constructor
  · intro xs
    exact merge_of_fixed _ (mergePass_of_merge_fixed xs)
  · intro xs ys hperm
    have hxy : (xs : Multiset Box) = (ys : Multiset Box) := Multiset.coe_eq_coe.mpr hperm
    refine mergeNormal_unique (s := (xs : Multiset Box)) (merge_reach xs) ?_ ?_ ?_
    · rw [hxy]; exact merge_reach ys
    · exact pairwise_mergeNormal _ (merge_pairwise xs)
    · exact pairwise_mergeNormal _ (merge_pairwise ys)

/-! ### Each output box is the union of a group of input boxes, and the
groups partition the input. -/

/-- Union of the nonempty group `p.1 :: p.2`, accumulated the way the inner
merge loop does (`currentBox = mergeTwoBoxes(currentBox, merged[j])`). -/
def listUnion (p : Box × List Box) : Box :=
  p.2.foldr (fun b u => mergeTwoBoxes u b) p.1

/-- Componentwise min of mins and max of maxes over the group `s :: r`. -/
def groupBox (s : Box) (r : List Box) : Box :=
  { minLat := (r.map Box.minLat).foldr min s.minLat
    maxLat := (r.map Box.maxLat).foldr max s.maxLat
    minLon := (r.map Box.minLon).foldr min s.minLon
    maxLon := (r.map Box.maxLon).foldr max s.maxLon }

/-- All members of a list of groups, in order. -/
def flatGroups (gs : List (Box × List Box)) : List Box :=
  (gs.map fun p => p.1 :: p.2).flatten

theorem foldr_merge_pull (l : List Box) (a b : Box) :
    List.foldr (fun x u => mergeTwoBoxes u x) (mergeTwoBoxes a b) l =
      mergeTwoBoxes (List.foldr (fun x u => mergeTwoBoxes u x) a l) b := by
  induction l with
  | nil => rfl
  | cons x l ih =>
    simp only [List.foldr_cons, ih]
    rw [mergeTwoBoxes_right_swap]

theorem listUnion_append (s1 : Box) (r1 : List Box) (s2 : Box) (r2 : List Box) :
    listUnion (s1, r1 ++ s2 :: r2) =
      mergeTwoBoxes (listUnion (s1, r1)) (listUnion (s2, r2)) := by
  induction r1 with
  | nil =>
    simp only [listUnion, List.nil_append, List.foldr_nil, List.foldr_cons]
    rw [show mergeTwoBoxes s1 (List.foldr (fun x u => mergeTwoBoxes u x) s2 r2) =
        mergeTwoBoxes (List.foldr (fun x u => mergeTwoBoxes u x) s2 r2) s1 from
      mergeTwoBoxes_comm _ _]
    rw [← foldr_merge_pull, mergeTwoBoxes_comm s1 s2, foldr_merge_pull]
  | cons x r1 ih =>
    simp only [listUnion, List.cons_append, List.foldr_cons] at ih ⊢
    rw [ih, mergeTwoBoxes_right_swap]

theorem listUnion_eq_groupBox (s : Box) (r : List Box) :
    listUnion (s, r) = groupBox s r := by
  induction r with
  | nil => simp [listUnion, groupBox]
  | cons b r ih =>
    simp only [listUnion, List.foldr_cons] at ih ⊢
    rw [ih]
    ext <;> simp [mergeTwoBoxes, groupBox, min_comm, max_comm]

theorem perm_append_swap_left {A' A G F2 F0 : List Box}
    (hp : (A' ++ F2).Perm (A ++ F0)) :
    (A' ++ (G ++ F2)).Perm (A ++ (G ++ F0)) := by
  have p1 : (A' ++ (G ++ F2)).Perm (G ++ (A' ++ F2)) := by
    rw [← List.append_assoc, ← List.append_assoc]
    exact (List.perm_append_comm).append_right F2
  have p3 : (G ++ (A ++ F0)).Perm (A ++ (G ++ F0)) := by
    rw [← List.append_assoc, ← List.append_assoc]
    exact (List.perm_append_comm).append_right F0
  exact (p1.trans (hp.append_left G)).trans p3

theorem absorb_groups (gs : List (Box × List Box)) : ∀ gc : Box × List Box,
    ∃ gc' gs',
      (absorb (listUnion gc) (gs.map listUnion)).1 = listUnion gc' ∧
      (absorb (listUnion gc) (gs.map listUnion)).2 = gs'.map listUnion ∧
      (flatGroups (gc' :: gs')).Perm (flatGroups (gc :: gs)) ∧
      gs'.length ≤ gs.length := by
  induction gs with
  | nil =>
    intro gc
    exact ⟨gc, [], by simp [absorb], by simp [absorb], List.Perm.refl _, le_refl _⟩
  | cons g gs0 ih =>
    intro gc
    by_cases hov : boxesOverlap (listUnion gc) (listUnion g)
    · simp only [List.map_cons]
      rw [show absorb (listUnion gc) (listUnion g :: gs0.map listUnion) =
          absorb (mergeTwoBoxes (listUnion gc) (listUnion g)) (gs0.map listUnion)
        from by simp [absorb, hov]]
      have hmerge : mergeTwoBoxes (listUnion gc) (listUnion g) =
          listUnion (gc.1, gc.2 ++ g.1 :: g.2) := by
        rw [listUnion_append]
      rw [hmerge]
      obtain ⟨gc', gs', h1, h2, h3, h4⟩ := ih (gc.1, gc.2 ++ g.1 :: g.2)
      refine ⟨gc', gs', h1, h2, ?_, Nat.le_succ_of_le h4⟩
      refine h3.trans (List.Perm.of_eq ?_)
      simp [flatGroups]
    · simp only [List.map_cons]
      rw [show absorb (listUnion gc) (listUnion g :: gs0.map listUnion) =
          ((absorb (listUnion gc) (gs0.map listUnion)).1,
           listUnion g :: (absorb (listUnion gc) (gs0.map listUnion)).2)
        from by simp [absorb, hov]]
      obtain ⟨gc', gs'', h1, h2, h3, h4⟩ := ih gc
      refine ⟨gc', g :: gs'', h1, by simp [h2], ?_, by simpa using h4⟩
      simp only [flatGroups, List.map_cons, List.flatten_cons] at h3 ⊢
      exact perm_append_swap_left h3

theorem mergePass_groups : ∀ (n : ℕ) (gs : List (Box × List Box)),
    gs.length ≤ n →
    ∃ gs', mergePass (gs.map listUnion) = gs'.map listUnion ∧
      (flatGroups gs').Perm (flatGroups gs) := by
  intro n
  induction n with
  | zero =>
    intro gs hlen
    rw [List.length_eq_zero.mp (Nat.le_zero.mp hlen)]
    exact ⟨[], by simp [mergePass], List.Perm.refl _⟩
  | succ n ih =>
    intro gs hlen
    match gs with
    | [] => exact ⟨[], by simp [mergePass], List.Perm.refl _⟩
    | g :: gs0 =>
      obtain ⟨gc', gs'', h1, h2, h3, h4⟩ := absorb_groups gs0 g
      rw [show ((g :: gs0).map listUnion : List Box) =
          listUnion g :: gs0.map listUnion from by simp]
      rw [show mergePass (listUnion g :: gs0.map listUnion) =
          (absorb (listUnion g) (gs0.map listUnion)).1 ::
            mergePass (absorb (listUnion g) (gs0.map listUnion)).2
        from by rw [mergePass]]
      rw [h1, h2]
      have hlen'' : gs''.length ≤ n := by
        simp only [List.length_cons] at hlen
        omega
      obtain ⟨gs3, hg1, hg2⟩ := ih gs'' hlen''
      refine ⟨gc' :: gs3, by simp [hg1], ?_⟩
      simp only [flatGroups, List.map_cons, List.flatten_cons] at hg2 h3 ⊢
      exact (hg2.append_left _).trans h3

theorem mergeLoop_groups : ∀ (n : ℕ) (gs : List (Box × List Box)),
    gs.length ≤ n →
    ∃ gs', mergeLoop (gs.map listUnion) = gs'.map listUnion ∧
      (flatGroups gs').Perm (flatGroups gs) := by
  intro n
  induction n with
  | zero =>
    intro gs hlen
    rw [List.length_eq_zero.mp (Nat.le_zero.mp hlen)]
    refine ⟨[], ?_, List.Perm.refl _⟩
    rw [mergeLoop]
    simp [mergePass]
  | succ n ih =>
    intro gs hlen
    obtain ⟨gsP, hP1, hP2⟩ := mergePass_groups (n + 1) gs hlen
    rw [mergeLoop]
    by_cases hlt : (mergePass (gs.map listUnion)).length < (gs.map listUnion).length
    · simp only [if_pos hlt]
      have hlenP : gsP.length ≤ n := by
        have : (mergePass (gs.map listUnion)).length = gsP.length := by
          rw [hP1, List.length_map]
        have hg : (gs.map listUnion).length = gs.length := List.length_map _ _
        omega
      obtain ⟨gs', hL1, hL2⟩ := ih gsP hlenP
      rw [hP1]
      exact ⟨gs', hL1, hL2.trans hP2⟩
    · simp only [if_neg hlt]
      exact ⟨gs, rfl, List.Perm.refl _⟩

theorem flatGroups_length (gs : List (Box × List Box)) :
    gs.length ≤ (flatGroups gs).length := by
  induction gs with
  | nil => simp [flatGroups]
  | cons g gs ih =>
    simp only [flatGroups, List.map_cons, List.flatten_cons, List.length_append,
      List.length_cons] at ih ⊢
    omega

theorem wfBox_merge {a b : Box}
    (ha : a.minLat ≤ a.maxLat ∧ a.minLon ≤ a.maxLon)
    (hb : b.minLat ≤ b.maxLat ∧ b.minLon ≤ b.maxLon) :
    (mergeTwoBoxes a b).minLat ≤ (mergeTwoBoxes a b).maxLat ∧
      (mergeTwoBoxes a b).minLon ≤ (mergeTwoBoxes a b).maxLon := by
  constructor
  · exact le_trans (min_le_left _ _) (le_trans ha.1 (le_max_left _ _))
  · exact le_trans (min_le_left _ _) (le_trans ha.2 (le_max_left _ _))

theorem wfBox_listUnion (s : Box)
    (hs : s.minLat ≤ s.maxLat ∧ s.minLon ≤ s.maxLon) :
    ∀ r : List Box, (∀ b ∈ r, b.minLat ≤ b.maxLat ∧ b.minLon ≤ b.maxLon) →
    (listUnion (s, r)).minLat ≤ (listUnion (s, r)).maxLat ∧
      (listUnion (s, r)).minLon ≤ (listUnion (s, r)).maxLon := by
  intro r
  induction r with
  | nil => exact fun _ => hs
  | cons b r ih =>
    intro hr
    simp only [listUnion, List.foldr_cons] at ih ⊢
    exact wfBox_merge (ih fun x hx => hr x (List.mem_cons_of_mem b hx))
      (hr b (List.mem_cons_self b r))

theorem flatGroups_singletons (boxes : List Box) :
    flatGroups (boxes.map fun b => (b, ([] : List Box))) = boxes := by
  induction boxes with
  | nil => rfl
  | cons b bs ih =>
    simp only [flatGroups, List.map_cons, List.flatten_cons] at ih ⊢
    simp only [List.map_map] at ih ⊢
    simp [ih]

theorem exists_merge_groups (boxes : List Box) :
    ∃ gs : List (Box × List Box),
      mergeOverlappingBoxes boxes = gs.map listUnion ∧
      (flatGroups gs).Perm boxes := by
  unfold mergeOverlappingBoxes
  by_cases hn : boxes.length = 0
  · rw [List.length_eq_zero] at hn
    subst hn
    exact ⟨[], by simp, List.Perm.refl _⟩
  · simp only [if_neg hn]
    have hcomp : (listUnion ∘ fun b => (b, ([] : List Box))) = id :=
      funext fun b => rfl
    have hinit : boxes = (boxes.map fun b => (b, ([] : List Box))).map listUnion := by
      rw [List.map_map, hcomp, List.map_id]
    have hflat0 : flatGroups (boxes.map fun b => (b, ([] : List Box))) = boxes :=
      flatGroups_singletons boxes
    obtain ⟨gs, h1, h2⟩ := mergeLoop_groups
      (boxes.map fun b => (b, ([] : List Box))).length
      (boxes.map fun b => (b, ([] : List Box))) (le_refl _)
    refine ⟨gs, ?_, by rw [← hflat0]; exact h2⟩
    rw [← h1, ← hinit]

/-- C10: every output box of `mergeOverlappingBoxes` is the componentwise
union (min of mins, max of maxes) of a nonempty group of input boxes, these
groups partition the input list (their concatenation is a permutation of
it); consequently the output is no longer than the input, and `min ≤ max`
on both axes is preserved. -/
theorem mergeOverlappingBoxes_partition_and_wf (boxes : List Box)
    (hwf : ∀ b ∈ boxes, b.minLat ≤ b.maxLat ∧ b.minLon ≤ b.maxLon) :
    (∃ gs : List (Box × List Box),
      mergeOverlappingBoxes boxes = gs.map (fun p => groupBox p.1 p.2) ∧
      (flatGroups gs).Perm boxes) ∧
    (mergeOverlappingBoxes boxes).length ≤ boxes.length ∧
    ∀ c ∈ mergeOverlappingBoxes boxes,
      c.minLat ≤ c.maxLat ∧ c.minLon ≤ c.maxLon := by
  obtain ⟨gs, hg1, hg2⟩ := exists_merge_groups boxes
  have hperm : (flatGroups gs).Perm boxes := hg2
  have hmain : ∃ gs : List (Box × List Box),
      mergeOverlappingBoxes boxes = gs.map (fun p => groupBox p.1 p.2) ∧
      (flatGroups gs).Perm boxes := by
    refine ⟨gs, ?_, hperm⟩
    rw [hg1]
    exact List.map_congr_left fun p _ => by
      rw [show listUnion p = listUnion (p.1, p.2) from by rfl, listUnion_eq_groupBox]
  refine ⟨hmain, ?_, ?_⟩
  · rw [hg1, List.length_map]
    calc gs.length ≤ (flatGroups gs).length := flatGroups_length gs
      _ = boxes.length := hperm.length_eq
  · intro c hc
    rw [hg1] at hc
    obtain ⟨p, hp, rfl⟩ := List.mem_map.mp hc
    have hmem : ∀ x ∈ p.1 :: p.2, x ∈ boxes := by
      intro x hx
      refine hperm.mem_iff.mp ?_
      simp only [flatGroups, List.mem_flatten]
      exact ⟨p.1 :: p.2, List.mem_map.mpr ⟨p, hp, rfl⟩, hx⟩
    rw [show listUnion p = listUnion (p.1, p.2) from rfl]
    exact wfBox_listUnion p.1 (hwf _ (hmem p.1 (List.mem_cons_self _ _))) p.2
      (fun b hb => hwf b (hmem b (List.mem_cons_of_mem _ hb)))

/-! ## Spherical geometry primitives (part_005 lines 83-125) -/

/-- A geographic point with numeric coordinates (decimal degrees). -/
structure Point where
  lat : ℝ
  lon : ℝ

attribute [ext] Point

/-- Modelled from the JavaScript runtime: `Math.atan2 y x`, the angle of the
vector `(x, y)` in `(-pi, pi]`.  Signed zeros, which real numbers lack, are
not modelled (JavaScript's `atan2 (-0) x` for `x < 0` returns `-pi`). -/
noncomputable def atan2 (y x : ℝ) : ℝ :=
  if 0 < x then Real.arctan (y / x)
  else if x = 0 then
    (if 0 < y then Real.pi / 2 else if y < 0 then -(Real.pi / 2) else 0)
  else if 0 ≤ y then Real.arctan (y / x) + Real.pi
  else Real.arctan (y / x) - Real.pi

/-- Function `calculateDistance` from part_005 lines 84-93: haversine great-circle
distance in kilometres, `R = 6371` km. -/
noncomputable def calculateDistance (lat1 lon1 lat2 lon2 : ℝ) : ℝ :=
  let R : ℝ := 6371
  let dLat := (lat2 - lat1) * Real.pi / 180
  let dLon := (lon2 - lon1) * Real.pi / 180
  let a := Real.sin (dLat / 2) * Real.sin (dLat / 2) +
    Real.cos (lat1 * Real.pi / 180) * Real.cos (lat2 * Real.pi / 180) *
    Real.sin (dLon / 2) * Real.sin (dLon / 2)
  let c := 2 * atan2 (Real.sqrt a) (Real.sqrt (1 - a))
  R * c

/-- Function `calculateBearing` from part_005 lines 96-105. -/
noncomputable def calculateBearing (lat1 lon1 lat2 lon2 : ℝ) : ℝ :=
  let dLon := (lon2 - lon1) * Real.pi / 180
  let lat1Rad := lat1 * Real.pi / 180
  let lat2Rad := lat2 * Real.pi / 180
  let y := Real.sin dLon * Real.cos lat2Rad
  let x := Real.cos lat1Rad * Real.sin lat2Rad -
    Real.sin lat1Rad * Real.cos lat2Rad * Real.cos dLon
  atan2 y x

/-- Function `calculateOffsetPoint` from part_005 lines 108-125: spherical
destination point along the direction perpendicular to `bearing`
(`bearing + pi/2`), distance `offsetMeters`, `R = 6371000` m. -/
noncomputable def calculateOffsetPoint (lat lon bearing offsetMeters : ℝ) : Point :=
  let R : ℝ := 6371000
  let offsetBearing := bearing + Real.pi / 2
  let latRad := lat * Real.pi / 180
  let lonRad := lon * Real.pi / 180
  let newLatRad := Real.arcsin (Real.sin latRad * Real.cos (offsetMeters / R) +
    Real.cos latRad * Real.sin (offsetMeters / R) * Real.cos offsetBearing)
  let newLonRad := lonRad +
    atan2 (Real.sin offsetBearing * Real.sin (offsetMeters / R) * Real.cos latRad)
      (Real.cos (offsetMeters / R) - Real.sin latRad * Real.sin newLatRad)
  { lat := newLatRad * 180 / Real.pi, lon := newLonRad * 180 / Real.pi }

theorem atan2_mem_Ioc (y x : ℝ) : atan2 y x ∈ Set.Ioc (-Real.pi) Real.pi := by
  have hpi := Real.pi_pos
  have ha1 := Real.arctan_lt_pi_div_two (y / x)
  have ha2 := Real.neg_pi_div_two_lt_arctan (y / x)
  unfold atan2
  by_cases hx : 0 < x
  · simp only [if_pos hx]
    constructor <;> [linarith; linarith]
  · simp only [if_neg hx]
    by_cases hx0 : x = 0
    · simp only [if_pos hx0]
      by_cases hy : 0 < y
      · simp only [if_pos hy]
        constructor <;> [linarith; linarith]
      · simp only [if_neg hy]
        by_cases hy0 : y < 0
        · simp only [if_pos hy0]
          constructor <;> [linarith; linarith]
        · simp only [if_neg hy0]
          constructor <;> [linarith; linarith]
    · simp only [if_neg hx0]
      have hxneg : x < 0 := lt_of_le_of_ne (not_lt.mp hx) hx0
      by_cases hy : 0 ≤ y
      · simp only [if_pos hy]
        have hyx : y / x ≤ 0 := div_nonpos_iff.mpr (Or.inl ⟨hy, le_of_lt hxneg⟩)
        have harc : Real.arctan (y / x) ≤ 0 := by
          rw [← Real.arctan_zero]
          exact Real.arctan_strictMono.monotone hyx
        constructor <;> [linarith; linarith]
      · simp only [if_neg hy]
        have hyneg : y < 0 := not_le.mp hy
        have hyx : 0 < y / x := div_pos_of_neg_of_neg hyneg hxneg
        have harc : 0 < Real.arctan (y / x) := by
          rw [← Real.arctan_zero]
          exact Real.arctan_strictMono hyx
        constructor <;> [linarith; linarith]

/-- C9: for every pair of points, the atan2-based bearing lies in the
half-open interval `(-pi, pi]` (in the real-number model; points need not
even be valid). -/
theorem calculateBearing_mem_Ioc (p1 p2 : Point) :
    calculateBearing p1.lat p1.lon p2.lat p2.lon ∈ Set.Ioc (-Real.pi) Real.pi := by
  unfold calculateBearing
  exact atan2_mem_Ioc _ _

theorem atan2_nonneg {y x : ℝ} (hy : 0 ≤ y) : 0 ≤ atan2 y x := by
  have hpi := Real.pi_pos
  unfold atan2
  by_cases hx : 0 < x
  · simp only [if_pos hx]
    rw [← Real.arctan_zero]
    exact Real.arctan_strictMono.monotone (div_nonneg hy (le_of_lt hx))
  · simp only [if_neg hx]
    by_cases hx0 : x = 0
    · simp only [if_pos hx0]
      by_cases hy1 : 0 < y
      · simp only [if_pos hy1]; linarith
      · simp only [if_neg hy1, if_neg (not_lt.mpr hy), le_refl]
    · simp only [if_neg hx0, if_pos hy]
      have := Real.neg_pi_div_two_lt_arctan (y / x)
      linarith

/-- Unfolded form of `calculateDistance` (the `let` bindings reduced). -/
theorem calculateDistance_eq (lat1 lon1 lat2 lon2 : ℝ) :
    calculateDistance lat1 lon1 lat2 lon2 =
      6371 * (2 * atan2
        (Real.sqrt (Real.sin ((lat2 - lat1) * Real.pi / 180 / 2) *
            Real.sin ((lat2 - lat1) * Real.pi / 180 / 2) +
          Real.cos (lat1 * Real.pi / 180) * Real.cos (lat2 * Real.pi / 180) *
            Real.sin ((lon2 - lon1) * Real.pi / 180 / 2) *
            Real.sin ((lon2 - lon1) * Real.pi / 180 / 2)))
        (Real.sqrt (1 - (Real.sin ((lat2 - lat1) * Real.pi / 180 / 2) *
            Real.sin ((lat2 - lat1) * Real.pi / 180 / 2) +
          Real.cos (lat1 * Real.pi / 180) * Real.cos (lat2 * Real.pi / 180) *
            Real.sin ((lon2 - lon1) * Real.pi / 180 / 2) *
            Real.sin ((lon2 - lon1) * Real.pi / 180 / 2))))) := rfl

theorem calculateDistance_nonneg (lat1 lon1 lat2 lon2 : ℝ) :
    0 ≤ calculateDistance lat1 lon1 lat2 lon2 := by
  rw [calculateDistance_eq]
  have h := atan2_nonneg
    (x := Real.sqrt (1 - (Real.sin ((lat2 - lat1) * Real.pi / 180 / 2) *
        Real.sin ((lat2 - lat1) * Real.pi / 180 / 2) +
      Real.cos (lat1 * Real.pi / 180) * Real.cos (lat2 * Real.pi / 180) *
        Real.sin ((lon2 - lon1) * Real.pi / 180 / 2) *
        Real.sin ((lon2 - lon1) * Real.pi / 180 / 2))))
    (Real.sqrt_nonneg (Real.sin ((lat2 - lat1) * Real.pi / 180 / 2) *
        Real.sin ((lat2 - lat1) * Real.pi / 180 / 2) +
      Real.cos (lat1 * Real.pi / 180) * Real.cos (lat2 * Real.pi / 180) *
        Real.sin ((lon2 - lon1) * Real.pi / 180 / 2) *
        Real.sin ((lon2 - lon1) * Real.pi / 180 / 2)))
  linarith

/-- Distance from a point to itself is zero. -/
theorem calculateDistance_self (lat lon : ℝ) :
    calculateDistance lat lon lat lon = 0 := by
  rw [calculateDistance_eq]
  simp [atan2, Real.arctan_zero]

/-- Haversine distance between two points on the equator a difference of
`d` degrees of longitude apart (`0 ≤ d ≤ 90`): exactly `6371 * (d*pi/180)`
kilometres. -/
theorem calculateDistance_equator (a d : ℝ) (h0 : 0 ≤ d) (h90 : d ≤ 90) :
    calculateDistance 0 a 0 (a + d) = 6371 * (d * Real.pi / 180) := by
  have hpi := Real.pi_pos
  rw [calculateDistance_eq]
  rw [show a + d - a = d from by ring]
  rw [show (0 - 0 : ℝ) * Real.pi / 180 / 2 = 0 from by ring]
  rw [show (0 : ℝ) * Real.pi / 180 = 0 from by ring]
  simp only [Real.sin_zero, Real.cos_zero, mul_zero, zero_mul, one_mul,
    zero_add, mul_one]
  set th := d * Real.pi / 180 / 2 with hth
  have hth0 : 0 ≤ th := by rw [hth]; positivity
  have hthlt : th < Real.pi / 2 := by
    rw [hth]
    nlinarith [mul_pos (show (0:ℝ) < 180 - d from by linarith) hpi]
  have hsin : Real.sqrt (Real.sin th * Real.sin th) = Real.sin th := by
    rw [show Real.sin th * Real.sin th = Real.sin th ^ 2 from by ring]
    exact Real.sqrt_sq (Real.sin_nonneg_of_nonneg_of_le_pi hth0 (by linarith))
  have hcos : Real.sqrt (1 - Real.sin th * Real.sin th) = Real.cos th := by
    rw [show (1 : ℝ) - Real.sin th * Real.sin th = Real.cos th ^ 2 from by
      nlinarith [Real.sin_sq_add_cos_sq th]]
    exact Real.sqrt_sq (Real.cos_nonneg_of_mem_Icc
      ⟨by linarith, le_of_lt hthlt⟩)
  have hcospos : 0 < Real.cos th :=
    Real.cos_pos_of_mem_Ioo ⟨by linarith, hthlt⟩
  rw [hsin, hcos]
  rw [show atan2 (Real.sin th) (Real.cos th) = th from by
    unfold atan2
    rw [if_pos hcospos, ← Real.tan_eq_sin_div_cos]
    exact Real.arctan_tan (by linarith) hthlt]
  rw [hth]
  ring

/-! ## Raw input points and sanitization (part_005 lines 127-135) -/

/-- A JavaScript value sitting in a `lat`/`lon` field: a finite number, NaN,
an infinity, or something that is not a number at all. -/
inductive JSVal where
  | num (x : ℝ)
  | nan
  | posInf
  | negInf
  | notNum

/-- The check `typeof v === 'number'`. -/
def jsIsNumberType : JSVal → Bool
  | .notNum => false
  | _ => true

/-- The check `isNaN(v)` (for the values a `lat`/`lon` field can hold). -/
def jsIsNaN : JSVal → Bool
  | .nan => true
  | _ => false

/-- The comparison `Math.abs(v) <= bound`: false for NaN (NaN comparisons are false) and
for the infinities (their absolute value exceeds any finite bound). -/
def jsAbsLe (v : JSVal) (bound : ℝ) : Prop :=
  match v with
  | .num x => |x| ≤ bound
  | _ => False

/-- A raw point from the caller: possibly null (`none`), with `lat`/`lon`
fields holding arbitrary values. -/
def RawPoint := Option (JSVal × JSVal)

/-- The filter condition of `validateRoutePoints` (lines 131-133):
`p && typeof p.lat === 'number' && typeof p.lon === 'number' &&
!isNaN(p.lat) && !isNaN(p.lon) && Math.abs(p.lat) <= 90 &&
Math.abs(p.lon) <= 180`. -/
def validPred (p : RawPoint) : Prop :=
  match p with
  | none => False
  | some q =>
    jsIsNumberType q.1 = true ∧ jsIsNumberType q.2 = true ∧
    jsIsNaN q.1 = false ∧ jsIsNaN q.2 = false ∧
    jsAbsLe q.1 90 ∧ jsAbsLe q.2 180

/-- The `[p.lat, p.lon]` pair built by `validateRoutePoints`'s `.map`
(line 134).  Only ever applied to points that passed the filter, so the
junk value for non-numeric fields is unreachable there. -/
def toPoint (p : RawPoint) : Point :=
  match p with
  | some (.num la, .num lo) => ⟨la, lo⟩
  | _ => ⟨0, 0⟩

/-- Function `validateRoutePoints` from part_005 lines 128-135 (the `!points`
null-check is vacuous here since a `List` is always present). -/
noncomputable def validateRoutePoints (points : List RawPoint) : List Point :=
  (points.filter fun p => decide (validPred p)).map toPoint

/-- The spec's notion of a well-formed point: numeric, not NaN (hence
finite), within range on both axes. -/
def claimValidPoint (p : RawPoint) : Prop :=
  ∃ la lo, p = some (.num la, .num lo) ∧ |la| ≤ 90 ∧ |lo| ≤ 180

theorem validPred_iff_claimValidPoint (p : RawPoint) :
    validPred p ↔ claimValidPoint p := by
  constructor
  · intro h
    match p with
    | none => exact absurd h (by simp [validPred])
    | some (la, lo) =>
      obtain ⟨h1, h2, h3, h4, h5, h6⟩ := h
      match la, lo with
      | .num x, .num y => exact ⟨x, y, rfl, h5, h6⟩
      | .num x, .nan => simp [jsIsNaN] at h4
      | .num x, .posInf => simp [jsAbsLe] at h6
      | .num x, .negInf => simp [jsAbsLe] at h6
      | .num x, .notNum => simp [jsIsNumberType] at h2
      | .nan, _ => simp [jsIsNaN] at h3
      | .posInf, _ => simp [jsAbsLe] at h5
      | .negInf, _ => simp [jsAbsLe] at h5
      | .notNum, _ => simp [jsIsNumberType] at h1
  · rintro ⟨la, lo, rfl, h1, h2⟩
    exact ⟨rfl, rfl, rfl, rfl, h1, h2⟩

/-- C8: sanitization keeps exactly the well-formed points (numeric, not
NaN, `|lat| ≤ 90`, `|lon| ≤ 180`), in their original order, and every
coordinate it outputs is within the valid ranges.  The function is total:
no input raises an error. -/
theorem validateRoutePoints_filters_malformed (points : List RawPoint) :
    validateRoutePoints points =
      (points.filter fun p => decide (claimValidPoint p)).map toPoint ∧
    ∀ q ∈ validateRoutePoints points, |q.lat| ≤ 90 ∧ |q.lon| ≤ 180 := by
  constructor
  · unfold validateRoutePoints
    congr 1
    apply List.filter_congr
    intro p _
    simp only [decide_eq_decide]
    exact validPred_iff_claimValidPoint p
  · intro q hq
    unfold validateRoutePoints at hq
    obtain ⟨p, hp, rfl⟩ := List.mem_map.mp hq
    have hvalid : validPred p := by
      have := List.of_mem_filter hp
      simpa using this
    obtain ⟨la, lo, rfl, h1, h2⟩ := (validPred_iff_claimValidPoint p).mp hvalid
    exact ⟨h1, h2⟩

/-- If every raw point is well-formed, sanitization is just the coordinate
extraction, in order. -/
theorem validateRoutePoints_all_valid (points : List RawPoint)
    (h : ∀ p ∈ points, validPred p) :
    validateRoutePoints points = points.map toPoint := by
  unfold validateRoutePoints
  rw [List.filter_eq_self.mpr fun p hp => by simpa using h p hp]

/-! ## Side-by-side offset rendering (part_005 lines 137-204) -/

/-- A route as passed to `processRoutesForSideBySideRendering`: a list of
raw caller-supplied points (plus opaque metadata, not modelled). -/
structure Route where
  points : List RawPoint

/-- The inner `for (let j ...; j += sampleRate)` loop of the overlap check
(lines 165-173): scan `l2` from index `j` in steps of `rate`, returning
true as soon as a point within 15 m of `p` is found (the `break`).  The
`0 < rate` guard is for termination; the caller always passes
`rate ≥ 20`. -/
noncomputable def innerOverlapScan (p : Point) (l2 : List Point) (rate j : ℕ) : Bool :=
  if h : j < l2.length ∧ 0 < rate then
    if calculateDistance p.lat p.lon (l2.getD j ⟨0, 0⟩).lat
        (l2.getD j ⟨0, 0⟩).lon * 1000 < 15 then true
    else innerOverlapScan p l2 rate (j + rate)
  else false
termination_by l2.length - j
decreasing_by omega

/-- The outer `for (let i ...; i += sampleRate)` loop (lines 162-174).
The early exit `!hasSignificantOverlap` does not change the resulting
boolean, only how soon the loop stops. -/
noncomputable def outerOverlapScan (l1 l2 : List Point) (rate i : ℕ) : Bool :=
  if h : i < l1.length ∧ 0 < rate then
    if innerOverlapScan (l1.getD i ⟨0, 0⟩) l2 rate 0 then true
    else outerOverlapScan l1 l2 rate (i + rate)
  else false
termination_by l1.length - i
decreasing_by omega

/-- The `hasSignificantOverlap` flag of lines 158-174. -/
noncomputable def hasSignificantOverlap (l1 l2 : List Point) (rate : ℕ) : Bool :=
  outerOverlapScan l1 l2 rate 0

/-- Function `processRoutesForSideBySideRendering` from part_005 lines 138-204. -/
noncomputable def processRoutesForSideBySideRendering (route1 route2 : Route) :
    List Point × List Point :=
  let route1Points := validateRoutePoints route1.points
  let route2Points := validateRoutePoints route2.points
  if route1Points.length = 0 ∨ route2Points.length = 0 then
    (route1Points, route2Points)
  else
    let sampleRate := max 20 (route1.points.length / 50)
    if hasSignificantOverlap route1Points route2Points sampleRate then
      let r1Start := toPoint (route1.points.getD 0 none)
      let r1End := toPoint (route1.points.getD (route1.points.length - 1) none)
      let r2Start := toPoint (route2.points.getD 0 none)
      let r2End := toPoint (route2.points.getD (route2.points.length - 1) none)
      let overallBearing1 :=
        calculateBearing r1Start.lat r1Start.lon r1End.lat r1End.lon
      let overallBearing2 :=
        calculateBearing r2Start.lat r2Start.lon r2End.lat r2End.lon
      ((validateRoutePoints route1.points).map fun pt =>
          calculateOffsetPoint pt.lat pt.lon overallBearing1 (-8 * 0.5),
       (validateRoutePoints route2.points).map fun pt =>
          calculateOffsetPoint pt.lat pt.lon overallBearing2 (8 * 0.5))
    else (route1Points, route2Points)

theorem innerOverlapScan_iff (p : Point) (l2 : List Point) (rate : ℕ)
    (hr : 0 < rate) : ∀ (n j : ℕ), l2.length - j ≤ n →
    (innerOverlapScan p l2 rate j = true ↔
      ∃ k, j + rate * k < l2.length ∧
        calculateDistance p.lat p.lon (l2.getD (j + rate * k) ⟨0, 0⟩).lat
          (l2.getD (j + rate * k) ⟨0, 0⟩).lon * 1000 < 15) := by
  intro n
  induction n with
  | zero =>
    intro j hj
    rw [innerOverlapScan]
    rw [dif_neg (by omega : ¬(j < l2.length ∧ 0 < rate))]
    constructor
    · intro h
      exact absurd h Bool.false_ne_true
    · rintro ⟨k, hk1, -⟩
      exact absurd hk1 (by omega)
  | succ n ih =>
    intro j hj
    rw [innerOverlapScan]
    by_cases hcond : j < l2.length ∧ 0 < rate
    · rw [dif_pos hcond]
      by_cases hd : calculateDistance p.lat p.lon (l2.getD j ⟨0, 0⟩).lat
          (l2.getD j ⟨0, 0⟩).lon * 1000 < 15
      · rw [if_pos hd]
        simp only [true_iff]
        exact ⟨0, by simpa using hcond.1, by simpa using hd⟩
      · rw [if_neg hd]
        rw [ih (j + rate) (by omega)]
        constructor
        · rintro ⟨k, hk1, hk2⟩
          exact ⟨k + 1, by rw [Nat.mul_add, Nat.mul_one]; omega,
            by rw [show j + rate * (k + 1) = j + rate + rate * k from by ring]
               exact hk2⟩
        · rintro ⟨k, hk1, hk2⟩
          match k with
          | 0 =>
            exfalso
            apply hd
            simpa using hk2
          | k + 1 =>
            exact ⟨k, by rw [Nat.mul_add, Nat.mul_one] at hk1; omega,
              by rw [show j + rate + rate * k = j + rate * (k + 1) from by ring]
                 exact hk2⟩
    · rw [dif_neg hcond]
      constructor
      · intro h
        exact absurd h Bool.false_ne_true
      · rintro ⟨k, hk1, -⟩
        exact absurd hk1 (by omega)

theorem outerOverlapScan_iff (l1 l2 : List Point) (rate : ℕ)
    (hr : 0 < rate) : ∀ (n i : ℕ), l1.length - i ≤ n →
    (outerOverlapScan l1 l2 rate i = true ↔
      ∃ k j, i + rate * k < l1.length ∧ j < l2.length ∧ rate ∣ j ∧
        calculateDistance (l1.getD (i + rate * k) ⟨0, 0⟩).lat
          (l1.getD (i + rate * k) ⟨0, 0⟩).lon
          (l2.getD j ⟨0, 0⟩).lat (l2.getD j ⟨0, 0⟩).lon * 1000 < 15) := by
  intro n
  induction n with
  | zero =>
    intro i hi
    rw [outerOverlapScan]
    rw [dif_neg (by omega : ¬(i < l1.length ∧ 0 < rate))]
    constructor
    · intro h
      exact absurd h Bool.false_ne_true
    · rintro ⟨k, j, hk1, -⟩
      exact absurd hk1 (by omega)
  | succ n ih =>
    intro i hi
    rw [outerOverlapScan]
    by_cases hcond : i < l1.length ∧ 0 < rate
    · rw [dif_pos hcond]
      by_cases hin : innerOverlapScan (l1.getD i ⟨0, 0⟩) l2 rate 0 = true
      · rw [if_pos hin]
        simp only [true_iff]
        obtain ⟨k2, hk2, hd⟩ :=
          (innerOverlapScan_iff (l1.getD i ⟨0, 0⟩) l2 rate hr l2.length 0
            (by omega)).mp hin
        exact ⟨0, rate * k2, by simpa using hcond.1, by simpa using hk2,
          Dvd.intro k2 rfl, by simpa using hd⟩
      · rw [if_neg hin]
        rw [ih (i + rate) (by omega)]
        constructor
        · rintro ⟨k, j, hk1, hj, hdvd, hd⟩
          exact ⟨k + 1, j, by rw [Nat.mul_add, Nat.mul_one]; omega, hj, hdvd,
            by rw [show i + rate * (k + 1) = i + rate + rate * k from by ring]
               exact hd⟩
        · rintro ⟨k, j, hk1, hj, hdvd, hd⟩
          match k with
          | 0 =>
            exfalso
            apply hin
            obtain ⟨k2, rfl⟩ := hdvd
            refine (innerOverlapScan_iff (l1.getD i ⟨0, 0⟩) l2 rate hr
              l2.length 0 (by omega)).mpr ⟨k2, by simpa using hj, ?_⟩
            simpa using hd
          | k + 1 =>
            exact ⟨k, j, by rw [Nat.mul_add, Nat.mul_one] at hk1; omega, hj, hdvd,
              by rw [show i + rate + rate * k = i + rate * (k + 1) from by ring]
                 exact hd⟩
    · rw [dif_neg hcond]
      constructor
      · intro h
        exact absurd h Bool.false_ne_true
      · rintro ⟨k, j, hk1, -⟩
        exact absurd hk1 (by omega)

/-- The overlap flag is set iff some pair of sampled points (one of each
track, indices multiples of the stride) is closer than 15 m. -/
theorem hasSignificantOverlap_iff (l1 l2 : List Point) (rate : ℕ)
    (hr : 0 < rate) :
    hasSignificantOverlap l1 l2 rate = true ↔
    ∃ i j, i < l1.length ∧ j < l2.length ∧ rate ∣ i ∧ rate ∣ j ∧
      calculateDistance (l1.getD i ⟨0, 0⟩).lat (l1.getD i ⟨0, 0⟩).lon
        (l2.getD j ⟨0, 0⟩).lat (l2.getD j ⟨0, 0⟩).lon * 1000 < 15 := by
  unfold hasSignificantOverlap
  rw [outerOverlapScan_iff l1 l2 rate hr l1.length 0 (by omega)]
  constructor
  · rintro ⟨k, j, hk, hj, hdvd, hd⟩
    exact ⟨rate * k, j, by simpa using hk, hj, Dvd.intro k rfl, hdvd,
      by simpa using hd⟩
  · rintro ⟨i, j, hi, hj, ⟨k, rfl⟩, hdvd, hd⟩
    exact ⟨k, j, by simpa using hi, hj, hdvd, by simpa using hd⟩

/-- C5: when no sampled cross-track pair of points is within 15 m (under
the code's sampling: both tracks strided by `max 20 (N1/50)` where `N1` is
the first route's raw point count), the offset renderer returns every
track's points unchanged (for well-formed tracks). -/
theorem processRoutes_noop (r1 r2 : Route)
    (h1 : ∀ p ∈ r1.points, validPred p) (h2 : ∀ p ∈ r2.points, validPred p)
    (hfar : ∀ i j, i < (validateRoutePoints r1.points).length →
      j < (validateRoutePoints r2.points).length →
      (max 20 (r1.points.length / 50)) ∣ i →
      (max 20 (r1.points.length / 50)) ∣ j →
      ¬(calculateDistance ((validateRoutePoints r1.points).getD i ⟨0, 0⟩).lat
          ((validateRoutePoints r1.points).getD i ⟨0, 0⟩).lon
          ((validateRoutePoints r2.points).getD j ⟨0, 0⟩).lat
          ((validateRoutePoints r2.points).getD j ⟨0, 0⟩).lon * 1000 < 15)) :
    processRoutesForSideBySideRendering r1 r2 =
      (r1.points.map toPoint, r2.points.map toPoint) := by
  have hv1 : validateRoutePoints r1.points = r1.points.map toPoint :=
    validateRoutePoints_all_valid r1.points h1
  have hv2 : validateRoutePoints r2.points = r2.points.map toPoint :=
    validateRoutePoints_all_valid r2.points h2
  unfold processRoutesForSideBySideRendering
  by_cases hz : (validateRoutePoints r1.points).length = 0 ∨
      (validateRoutePoints r2.points).length = 0
  · simp only [if_pos hz]
    rw [hv1, hv2]
  · simp only [if_neg hz]
    have hflag : hasSignificantOverlap (validateRoutePoints r1.points)
        (validateRoutePoints r2.points) (max 20 (r1.points.length / 50)) = false := by
      rw [Bool.eq_false_iff]
      intro htrue
      obtain ⟨i, j, hi, hj, hdi, hdj, hd⟩ :=
        (hasSignificantOverlap_iff _ _ _ (by omega)).mp htrue
      exact hfar i j hi hj hdi hdj hd
    rw [hflag]
    simp only [Bool.false_eq_true, if_false]
    rw [hv1, hv2]

/-- C6: when the overlap flag is set (and both tracks have points), every
sanitized point of track A is moved by `calculateOffsetPoint` (the
spherical destination-point formula, direction `bearing + pi/2`) through
`-4` m (`-OFFSET_DISTANCE/2` with `OFFSET_DISTANCE = 8`), and every point
of track B through `+4` m, each using the single overall bearing of its
own track, computed from the track's first to its last raw point. -/
theorem processRoutes_offsets (r1 r2 : Route)
    (hn1 : (validateRoutePoints r1.points).length ≠ 0)
    (hn2 : (validateRoutePoints r2.points).length ≠ 0)
    (hflag : hasSignificantOverlap (validateRoutePoints r1.points)
      (validateRoutePoints r2.points) (max 20 (r1.points.length / 50)) = true) :
    processRoutesForSideBySideRendering r1 r2 =
      ((validateRoutePoints r1.points).map fun pt =>
        calculateOffsetPoint pt.lat pt.lon
          (calculateBearing (toPoint (r1.points.getD 0 none)).lat
            (toPoint (r1.points.getD 0 none)).lon
            (toPoint (r1.points.getD (r1.points.length - 1) none)).lat
            (toPoint (r1.points.getD (r1.points.length - 1) none)).lon)
          (-4),
       (validateRoutePoints r2.points).map fun pt =>
        calculateOffsetPoint pt.lat pt.lon
          (calculateBearing (toPoint (r2.points.getD 0 none)).lat
            (toPoint (r2.points.getD 0 none)).lon
            (toPoint (r2.points.getD (r2.points.length - 1) none)).lat
            (toPoint (r2.points.getD (r2.points.length - 1) none)).lon)
          4) := by
  unfold processRoutesForSideBySideRendering
  rw [if_neg (by push_neg; exact ⟨hn1, hn2⟩), if_pos hflag]
  rw [show (-8 * 0.5 : ℝ) = -4 from by norm_num,
    show (8 * 0.5 : ℝ) = 4 from by norm_num]

/-- C7 (amended): both tracks are sampled at the same stride
`max(20, floor(N1/50))` computed from the FIRST route's raw point count,
and the pair is flagged as significantly overlapping iff some pair of
points so sampled is closer than 15 m. -/
theorem overlap_flag_iff_stride_from_first_route (r1 r2 : Route) :
    hasSignificantOverlap (validateRoutePoints r1.points)
        (validateRoutePoints r2.points) (max 20 (r1.points.length / 50)) = true ↔
    ∃ i j, i < (validateRoutePoints r1.points).length ∧
      j < (validateRoutePoints r2.points).length ∧
      (max 20 (r1.points.length / 50)) ∣ i ∧
      (max 20 (r1.points.length / 50)) ∣ j ∧
      calculateDistance ((validateRoutePoints r1.points).getD i ⟨0, 0⟩).lat
        ((validateRoutePoints r1.points).getD i ⟨0, 0⟩).lon
        ((validateRoutePoints r2.points).getD j ⟨0, 0⟩).lat
        ((validateRoutePoints r2.points).getD j ⟨0, 0⟩).lon * 1000 < 15 :=
  hasSignificantOverlap_iff _ _ _ (by omega)

/-! ## Difference-area boxes (part_005 lines 561-586, and the variant in
src/components/InteractiveMap.jsx lines 482-507) -/

/-- A classified segment as delivered to the map component. -/
structure Segment where
  is_different : Bool
  points : List Point

/-- Constant `fixedPaddingInDegrees` from part_005 line 564: a fixed 50 m ground
distance converted to degrees. -/
noncomputable def fixedPaddingInDegrees : ℝ := 50 / 111000

/-- The box built around one difference segment in part_005 (lines
570-585): tight bounds over the segment's points, padded per axis by
`max(span * 0.40, fixedPaddingInDegrees)`. -/
noncomputable def diffBoxOfSegmentPoints (pts : List Point) : Box :=
  match pts with
  | [] => ⟨0, 0, 0, 0⟩
  | p :: rest =>
    let minLat := (rest.map Point.lat).foldr min p.lat
    let maxLat := (rest.map Point.lat).foldr max p.lat
    let minLon := (rest.map Point.lon).foldr min p.lon
    let maxLon := (rest.map Point.lon).foldr max p.lon
    let latPadding := max ((maxLat - minLat) * 0.40) fixedPaddingInDegrees
    let lonPadding := max ((maxLon - minLon) * 0.40) fixedPaddingInDegrees
    ⟨minLat - latPadding, maxLat + latPadding,
     minLon - lonPadding, maxLon + lonPadding⟩

/-- The variant in src/components/InteractiveMap.jsx lines 490-505: the
same tight box, but padded per axis by
`max(span * 0.3, differenceThreshold / 111000)` — the padding scales with
the difference threshold there. -/
noncomputable def diffBoxOfSegmentPointsIM (differenceThreshold : ℝ)
    (pts : List Point) : Box :=
  match pts with
  | [] => ⟨0, 0, 0, 0⟩
  | p :: rest =>
    let minLat := (rest.map Point.lat).foldr min p.lat
    let maxLat := (rest.map Point.lat).foldr max p.lat
    let minLon := (rest.map Point.lon).foldr min p.lon
    let maxLon := (rest.map Point.lon).foldr max p.lon
    let thresholdInDegrees := differenceThreshold / 111000
    let latPadding := max ((maxLat - minLat) * 0.3) thresholdInDegrees
    let lonPadding := max ((maxLon - minLon) * 0.3) thresholdInDegrees
    ⟨minLat - latPadding, maxLat + latPadding,
     minLon - lonPadding, maxLon + lonPadding⟩

/-- The per-route collection loop (part_005 lines 566-588): a box for each
segment that is different and has at least 2 points. -/
noncomputable def collectDifferenceBoxes (segments : List Segment) : List Box :=
  segments.filterMap fun s =>
    if s.is_different = true ∧ 2 ≤ s.points.length then
      some (diffBoxOfSegmentPoints s.points)
    else none

theorem foldr_min_spec (l : List ℝ) (a : ℝ) :
    (l.foldr min a = a ∨ l.foldr min a ∈ l) ∧
    l.foldr min a ≤ a ∧ ∀ x ∈ l, l.foldr min a ≤ x := by
  induction l with
  | nil => simp
  | cons b l ih =>
    obtain ⟨hmem, hle, hall⟩ := ih
    simp only [List.foldr_cons]
    refine ⟨?_, ?_, ?_⟩
    · rcases min_cases b (l.foldr min a) with ⟨heq, -⟩ | ⟨heq, -⟩
      · right; rw [heq]; exact List.mem_cons_self b l
      · rw [heq]
        rcases hmem with h | h
        · left; exact h
        · right; exact List.mem_cons_of_mem b h
    · exact le_trans (min_le_right _ _) hle
    · intro x hx
      rcases List.mem_cons.mp hx with rfl | hx
      · exact min_le_left _ _
      · exact le_trans (min_le_right _ _) (hall x hx)

theorem foldr_max_spec (l : List ℝ) (a : ℝ) :
    (l.foldr max a = a ∨ l.foldr max a ∈ l) ∧
    a ≤ l.foldr max a ∧ ∀ x ∈ l, x ≤ l.foldr max a := by
  induction l with
  | nil => simp
  | cons b l ih =>
    obtain ⟨hmem, hle, hall⟩ := ih
    simp only [List.foldr_cons]
    refine ⟨?_, ?_, ?_⟩
    · rcases max_cases b (l.foldr max a) with ⟨heq, -⟩ | ⟨heq, -⟩
      · right; rw [heq]; exact List.mem_cons_self b l
      · rw [heq]
        rcases hmem with h | h
        · left; exact h
        · right; exact List.mem_cons_of_mem b h
    · exact le_trans hle (le_max_right _ _)
    · intro x hx
      rcases List.mem_cons.mp hx with rfl | hx
      · exact le_max_left _ _
      · exact le_trans (hall x hx) (le_max_right _ _)

/-- C3 (amended): for a segment with at least two points, the part_005 box
is the tight axis-aligned bounding box of the points, padded independently
per axis by `max(0.40 * span, 50/111000)`, independent of the difference
threshold; the InteractiveMap.jsx variant instead pads the same tight box
by `max(0.3 * span, threshold/111000)`, which depends on the threshold. -/
theorem diffBox_tight_padded (pts : List Point) (t : ℝ) (h2 : 2 ≤ pts.length) :
    ∃ mlat Mlat mlon Mlon : ℝ,
      (mlat ∈ pts.map Point.lat ∧ ∀ x ∈ pts.map Point.lat, mlat ≤ x) ∧
      (Mlat ∈ pts.map Point.lat ∧ ∀ x ∈ pts.map Point.lat, x ≤ Mlat) ∧
      (mlon ∈ pts.map Point.lon ∧ ∀ x ∈ pts.map Point.lon, mlon ≤ x) ∧
      (Mlon ∈ pts.map Point.lon ∧ ∀ x ∈ pts.map Point.lon, x ≤ Mlon) ∧
      diffBoxOfSegmentPoints pts =
        { minLat := mlat - max ((Mlat - mlat) * 0.40) (50 / 111000)
          maxLat := Mlat + max ((Mlat - mlat) * 0.40) (50 / 111000)
          minLon := mlon - max ((Mlon - mlon) * 0.40) (50 / 111000)
          maxLon := Mlon + max ((Mlon - mlon) * 0.40) (50 / 111000) } ∧
      diffBoxOfSegmentPointsIM t pts =
        { minLat := mlat - max ((Mlat - mlat) * 0.3) (t / 111000)
          maxLat := Mlat + max ((Mlat - mlat) * 0.3) (t / 111000)
          minLon := mlon - max ((Mlon - mlon) * 0.3) (t / 111000)
          maxLon := Mlon + max ((Mlon - mlon) * 0.3) (t / 111000) } := by
  match pts with
  | [] => exact absurd h2 (by simp)
  | p :: rest =>
    refine ⟨(rest.map Point.lat).foldr min p.lat,
      (rest.map Point.lat).foldr max p.lat,
      (rest.map Point.lon).foldr min p.lon,
      (rest.map Point.lon).foldr max p.lon, ?_, ?_, ?_, ?_, rfl, rfl⟩
    · obtain ⟨hmem, hle, hall⟩ := foldr_min_spec (rest.map Point.lat) p.lat
      constructor
      · simp only [List.map_cons]
        rcases hmem with h | h
        · rw [h]; exact List.mem_cons_self _ _
        · exact List.mem_cons_of_mem _ h
      · intro x hx
        simp only [List.map_cons] at hx
        rcases List.mem_cons.mp hx with rfl | hx
        · exact hle
        · exact hall x hx
    · obtain ⟨hmem, hle, hall⟩ := foldr_max_spec (rest.map Point.lat) p.lat
      constructor
      · simp only [List.map_cons]
        rcases hmem with h | h
        · rw [h]; exact List.mem_cons_self _ _
        · exact List.mem_cons_of_mem _ h
      · intro x hx
        simp only [List.map_cons] at hx
        rcases List.mem_cons.mp hx with rfl | hx
        · exact hle
        · exact hall x hx
    · obtain ⟨hmem, hle, hall⟩ := foldr_min_spec (rest.map Point.lon) p.lon
      constructor
      · simp only [List.map_cons]
        rcases hmem with h | h
        · rw [h]; exact List.mem_cons_self _ _
        · exact List.mem_cons_of_mem _ h
      · intro x hx
        simp only [List.map_cons] at hx
        rcases List.mem_cons.mp hx with rfl | hx
        · exact hle
        · exact hall x hx
    · obtain ⟨hmem, hle, hall⟩ := foldr_max_spec (rest.map Point.lon) p.lon
      constructor
      · simp only [List.map_cons]
        rcases hmem with h | h
        · rw [h]; exact List.mem_cons_self _ _
        · exact List.mem_cons_of_mem _ h
      · intro x hx
        simp only [List.map_cons] at hx
        rcases List.mem_cons.mp hx with rfl | hx
        · exact hle
        · exact hall x hx

/-! ## Kilometer markers (part_005 lines 206-253) -/

/-- The filter inside `generateKilometerMarkers` (lines 211-214): numeric,
non-NaN coordinates — NO range check there. -/
def numericPred (p : RawPoint) : Prop :=
  match p with
  | none => False
  | some q =>
    jsIsNumberType q.1 = true ∧ jsIsNumberType q.2 = true ∧
    jsIsNaN q.1 = false ∧ jsIsNaN q.2 = false

/-- A kilometer marker: interpolated position, kilometre number, and the
route color passed through. -/
structure KmMarker where
  position : Point
  kilometer : ℕ
  color : String

/-- The `while (nextKilometer <= segmentEnd)` loop (lines 232-247): emit a
marker for every integer kilometre boundary crossed inside the current
pair of points, interpolating linearly in raw lat/lon. -/
noncomputable def emitMarkers (pPrev pCur : Point) (segStart segDist : ℝ)
    (nk : ℕ) (color : String) : List KmMarker :=
  if h : (nk : ℝ) ≤ segStart + segDist then
    let distanceIntoSegment := (nk : ℝ) - segStart
    let frac := distanceIntoSegment / segDist
    let la := pPrev.lat + (pCur.lat - pPrev.lat) * frac
    let lo := pPrev.lon + (pCur.lon - pPrev.lon) * frac
    ⟨⟨la, lo⟩, nk, color⟩ :: emitMarkers pPrev pCur segStart segDist (nk + 1) color
  else []
termination_by Nat.ceil (segStart + segDist) + 1 - nk
decreasing_by
  have hle : nk ≤ Nat.ceil (segStart + segDist) := by
    exact_mod_cast le_trans h (Nat.le_ceil _)
  omega

/-- The `for (let i = 1; ...)` loop (lines 222-250): walk consecutive point
pairs, accumulating the total distance and the next unclaimed kilometre. -/
noncomputable def kmLoop (pPrev : Point) (rest : List Point)
    (totalDistance : ℝ) (nk : ℕ) (color : String) : List KmMarker :=
  match rest with
  | [] => []
  | cur :: rest' =>
    let segmentDistance :=
      calculateDistance pPrev.lat pPrev.lon cur.lat cur.lon
    let ms := emitMarkers pPrev cur totalDistance segmentDistance nk color
    ms ++ kmLoop cur rest' (totalDistance + segmentDistance) (nk + ms.length) color

/-- Function `generateKilometerMarkers` from part_005 lines 207-253. -/
noncomputable def generateKilometerMarkers (points : List RawPoint)
    (color : String) : List KmMarker :=
  if points.length < 2 then []
  else
    let validPoints := (points.filter fun p => decide (numericPred p)).map toPoint
    if validPoints.length < 2 then []
    else
      match validPoints with
      | [] => []
      | p :: rest => kmLoop p rest 0 1 color

/-- Cumulative along-track distance of a polyline, in km, as accumulated by
the marker loop. -/
noncomputable def pathLength (p : Point) : List Point → ℝ
  | [] => 0
  | q :: rest => calculateDistance p.lat p.lon q.lat q.lon + pathLength q rest

/-- Total length of a track given as a point list. -/
noncomputable def totalTrackLength (pts : List Point) : ℝ :=
  match pts with
  | [] => 0
  | p :: rest => pathLength p rest

theorem emitMarkers_spec (pPrev pCur : Point) (s d : ℝ) (c : String)
    (hd : 0 ≤ d) : ∀ (n nk : ℕ), Nat.ceil (s + d) + 1 - nk ≤ n →
    s < (nk : ℝ) → (nk : ℝ) ≤ s + d + 1 →
    ∃ m, (emitMarkers pPrev pCur s d nk c).map (·.kilometer) = List.range' nk m ∧
      s + d < ((nk + m : ℕ) : ℝ) ∧ ((nk + m : ℕ) : ℝ) ≤ s + d + 1 := by
  intro n
  induction n with
  | zero =>
    intro nk hfuel h1 h2
    have hnot : ¬((nk : ℝ) ≤ s + d) := by
      intro hle
      have : nk ≤ Nat.ceil (s + d) := by
        exact_mod_cast le_trans hle (Nat.le_ceil _)
      omega
    rw [emitMarkers, dif_neg hnot]
    exact ⟨0, by simp, by push_cast; linarith [not_le.mp hnot], by push_cast; linarith⟩
  | succ n ih =>
    intro nk hfuel h1 h2
    rw [emitMarkers]
    by_cases hle : (nk : ℝ) ≤ s + d
    · rw [dif_pos hle]
      have hceil : nk ≤ Nat.ceil (s + d) := by
        exact_mod_cast le_trans hle (Nat.le_ceil _)
      obtain ⟨m, hmap, hlt, hub⟩ := ih (nk + 1) (by omega)
        (by push_cast; linarith) (by push_cast; linarith)
      refine ⟨m + 1, ?_, ?_, ?_⟩
      · simp only [List.map_cons, hmap, List.range'_succ]
      · push_cast at hlt ⊢
        linarith
      · push_cast at hub ⊢
        linarith
    · rw [dif_neg hle]
      exact ⟨0, by simp, by push_cast; linarith [not_le.mp hle],
        by push_cast; linarith⟩

theorem kmLoop_spec (c : String) : ∀ (rest : List Point) (pPrev : Point)
    (total : ℝ) (nk : ℕ), total < (nk : ℝ) → (nk : ℝ) ≤ total + 1 →
    ∃ m, (kmLoop pPrev rest total nk c).map (·.kilometer) = List.range' nk m ∧
      total + pathLength pPrev rest < ((nk + m : ℕ) : ℝ) ∧
      ((nk + m : ℕ) : ℝ) ≤ total + pathLength pPrev rest + 1 := by
  intro rest
  induction rest with
  | nil =>
    intro pPrev total nk h1 h2
    refine ⟨0, by simp [kmLoop], ?_, ?_⟩
    · simp only [pathLength]
      push_cast
      linarith
    · simp only [pathLength]
      push_cast
      linarith
  | cons cur rest' ih =>
    intro pPrev total nk h1 h2
    have hd : 0 ≤ calculateDistance pPrev.lat pPrev.lon cur.lat cur.lon :=
      calculateDistance_nonneg _ _ _ _
    obtain ⟨m1, hmap1, hlt1, hub1⟩ := emitMarkers_spec pPrev cur total
      (calculateDistance pPrev.lat pPrev.lon cur.lat cur.lon) c hd
      (Nat.ceil (total + calculateDistance pPrev.lat pPrev.lon cur.lat cur.lon) + 1 - nk)
      nk (le_refl _) h1 (by linarith)
    have hlen1 : (emitMarkers pPrev cur total
        (calculateDistance pPrev.lat pPrev.lon cur.lat cur.lon) nk c).length = m1 := by
      have := congrArg List.length hmap1
      simpa using this
    obtain ⟨m2, hmap2, hlt2, hub2⟩ := ih cur
      (total + calculateDistance pPrev.lat pPrev.lon cur.lat cur.lon) (nk + m1)
      (by push_cast at hlt1 ⊢; linarith) (by push_cast at hub1 ⊢; linarith)
    refine ⟨m1 + m2, ?_, ?_, ?_⟩
    · rw [show kmLoop pPrev (cur :: rest') total nk c =
          emitMarkers pPrev cur total
            (calculateDistance pPrev.lat pPrev.lon cur.lat cur.lon) nk c ++
          kmLoop cur rest'
            (total + calculateDistance pPrev.lat pPrev.lon cur.lat cur.lon)
            (nk + (emitMarkers pPrev cur total
              (calculateDistance pPrev.lat pPrev.lon cur.lat cur.lon) nk c).length) c
        from by rw [kmLoop]]
      rw [List.map_append, hmap1, hlen1, hmap2]
      rw [show nk + m1 = nk + 1 * m1 from by ring]
      rw [List.range'_append]
      rw [Nat.add_comm m2 m1]
    · simp only [pathLength]
      push_cast at hlt2 ⊢
      linarith
    · simp only [pathLength]
      push_cast at hub2 ⊢
      linarith

/-- C4: for a track whose per-pair haversine distances are all accounted
for by a total length of exactly `L` whole kilometres (`L ≥ 1`), with at
least two points, all numeric, the generator emits exactly the kilometre
numbers `1, 2, ..., L` in increasing order, none duplicated or skipped. -/
theorem generateKilometerMarkers_range (points : List RawPoint)
    (color : String) (L : ℕ)
    (hval : ∀ p ∈ points, numericPred p)
    (hlen : 2 ≤ points.length)
    (hL : 1 ≤ L)
    (hsum : totalTrackLength (points.map toPoint) = (L : ℝ)) :
    (generateKilometerMarkers points color).map (·.kilometer) =
      List.range' 1 L := by
  unfold generateKilometerMarkers
  rw [if_neg (by omega)]
  have hfilter : points.filter (fun p => decide (numericPred p)) = points :=
    List.filter_eq_self.mpr fun p hp => by simpa using hval p hp
  rw [hfilter]
  have hmaplen : (points.map toPoint).length = points.length := List.length_map _ _
  rw [if_neg (by omega)]
  match hm : points.map toPoint with
  | [] =>
    rw [hm] at hmaplen
    simp at hmaplen
    omega
  | p :: rest =>
    rw [hm] at hsum
    simp only [totalTrackLength] at hsum
    obtain ⟨m, hmap, hlt, hub⟩ := kmLoop_spec color rest p 0 1
      (by norm_num) (by norm_num)
    rw [hsum] at hlt hub
    have hmL : m = L := by
      push_cast at hlt hub
      have hlt' : (L : ℝ) < 1 + m := by linarith
      have hub' : (1 : ℝ) + m ≤ L + 1 := by linarith
      have hlt'' : L < 1 + m := by exact_mod_cast hlt'
      have hub'' : 1 + m ≤ L + 1 := by exact_mod_cast hub'
      omega
    rw [hmap, hmL]

/-! ## Witnesses and counterexamples on concrete inputs -/

theorem validPred_num {a b : ℝ} (ha : |a| ≤ 90) (hb : |b| ≤ 180) :
    validPred (some (.num a, .num b)) :=
  ⟨rfl, rfl, rfl, rfl, ha, hb⟩

/-- Witness for C2 at a concrete input: two swapped boxes. -/
theorem merge_order_independent_witness :
    (([⟨0, 1, 0, 1⟩, ⟨2, 3, 2, 3⟩] : List Box).Perm
      ([⟨2, 3, 2, 3⟩, ⟨0, 1, 0, 1⟩] : List Box)) ∧
    (mergeOverlappingBoxes [⟨0, 1, 0, 1⟩, ⟨2, 3, 2, 3⟩] : Multiset Box) =
      (mergeOverlappingBoxes [⟨2, 3, 2, 3⟩, ⟨0, 1, 0, 1⟩] : Multiset Box) :=
  ⟨List.Perm.swap _ _ _,
   mergeOverlappingBoxes_idempotent_and_order_independent.2 _ _
     (List.Perm.swap _ _ _)⟩

/-- Witness for C10 at a concrete input: a single well-formed box. -/
theorem merge_partition_witness :
    (∀ b ∈ ([⟨0, 1, 0, 1⟩] : List Box), b.minLat ≤ b.maxLat ∧ b.minLon ≤ b.maxLon) ∧
    ((∃ gs : List (Box × List Box),
        mergeOverlappingBoxes [⟨0, 1, 0, 1⟩] = gs.map (fun p => groupBox p.1 p.2) ∧
        (flatGroups gs).Perm [⟨0, 1, 0, 1⟩]) ∧
      (mergeOverlappingBoxes [⟨0, 1, 0, 1⟩]).length ≤ ([⟨0, 1, 0, 1⟩] : List Box).length ∧
      ∀ c ∈ mergeOverlappingBoxes [⟨0, 1, 0, 1⟩],
        c.minLat ≤ c.maxLat ∧ c.minLon ≤ c.maxLon) := by
  have hwf : ∀ b ∈ ([⟨0, 1, 0, 1⟩] : List Box),
      b.minLat ≤ b.maxLat ∧ b.minLon ≤ b.maxLon := by
    intro b hb
    rcases List.mem_cons.mp hb with rfl | hb
    · constructor <;> norm_num
    · cases hb
  exact ⟨hwf, mergeOverlappingBoxes_partition_and_wf _ hwf⟩

/-- Witness for C3 (amended) at a concrete segment and threshold. -/
theorem diffBox_tight_padded_witness :
    (2 ≤ ([⟨0, 0⟩, ⟨1, 1⟩] : List Point).length) ∧
    (∃ mlat Mlat mlon Mlon : ℝ,
      (mlat ∈ ([⟨0, 0⟩, ⟨1, 1⟩] : List Point).map Point.lat ∧
        ∀ x ∈ ([⟨0, 0⟩, ⟨1, 1⟩] : List Point).map Point.lat, mlat ≤ x) ∧
      (Mlat ∈ ([⟨0, 0⟩, ⟨1, 1⟩] : List Point).map Point.lat ∧
        ∀ x ∈ ([⟨0, 0⟩, ⟨1, 1⟩] : List Point).map Point.lat, x ≤ Mlat) ∧
      (mlon ∈ ([⟨0, 0⟩, ⟨1, 1⟩] : List Point).map Point.lon ∧
        ∀ x ∈ ([⟨0, 0⟩, ⟨1, 1⟩] : List Point).map Point.lon, mlon ≤ x) ∧
      (Mlon ∈ ([⟨0, 0⟩, ⟨1, 1⟩] : List Point).map Point.lon ∧
        ∀ x ∈ ([⟨0, 0⟩, ⟨1, 1⟩] : List Point).map Point.lon, x ≤ Mlon) ∧
      diffBoxOfSegmentPoints [⟨0, 0⟩, ⟨1, 1⟩] =
        { minLat := mlat - max ((Mlat - mlat) * 0.40) (50 / 111000)
          maxLat := Mlat + max ((Mlat - mlat) * 0.40) (50 / 111000)
          minLon := mlon - max ((Mlon - mlon) * 0.40) (50 / 111000)
          maxLon := Mlon + max ((Mlon - mlon) * 0.40) (50 / 111000) } ∧
      diffBoxOfSegmentPointsIM 40 [⟨0, 0⟩, ⟨1, 1⟩] =
        { minLat := mlat - max ((Mlat - mlat) * 0.3) (40 / 111000)
          maxLat := Mlat + max ((Mlat - mlat) * 0.3) (40 / 111000)
          minLon := mlon - max ((Mlon - mlon) * 0.3) (40 / 111000)
          maxLon := Mlon + max ((Mlon - mlon) * 0.3) (40 / 111000) }) :=
  ⟨by simp, diffBox_tight_padded [⟨0, 0⟩, ⟨1, 1⟩] 40 (by simp)⟩

/-- Counterexample for C3 as stated: on the segment
`[(0,0), (0.001, 0.001)]`, the InteractiveMap.jsx box does NOT equal the
claimed `max(0.40*span, 50/111000)` padding (at threshold 40 m), and it
changes when the difference threshold changes from 40 to 100 — the padding
does depend on the threshold. -/
theorem diffBox_claim_counterexample :
    (diffBoxOfSegmentPointsIM 40 [⟨0, 0⟩, ⟨1/1000, 1/1000⟩]).minLat ≠
      (diffBoxOfSegmentPoints [⟨0, 0⟩, ⟨1/1000, 1/1000⟩]).minLat ∧
    diffBoxOfSegmentPointsIM 40 [⟨0, 0⟩, ⟨1/1000, 1/1000⟩] ≠
      diffBoxOfSegmentPointsIM 100 [⟨0, 0⟩, ⟨1/1000, 1/1000⟩] := by
  constructor
  · intro h
    simp only [diffBoxOfSegmentPointsIM, diffBoxOfSegmentPoints, List.map_cons,
      List.map_nil, List.foldr_cons, List.foldr_nil, fixedPaddingInDegrees] at h
    norm_num [min_def, max_def] at h
  · intro h
    have := congrArg Box.minLat h
    simp only [diffBoxOfSegmentPointsIM, List.map_cons, List.map_nil,
      List.foldr_cons, List.foldr_nil] at this
    norm_num [min_def, max_def] at this

theorem calculateDistance_zero_one :
    calculateDistance 0 0 0 1 = 6371 * (Real.pi / 180) := by
  have h := calculateDistance_equator 0 1 (by norm_num) (by norm_num)
  rw [show (0 : ℝ) + 1 = 1 from by norm_num] at h
  rw [h]
  ring

theorem far_one_degree : ¬(calculateDistance 0 0 0 1 * 1000 < 15) := by
  rw [calculateDistance_zero_one]
  intro hlt
  nlinarith [Real.pi_gt_three]

/-- Witness for C4 at a concrete input: a two-point equatorial track of
length exactly 1 km. -/
theorem generateKilometerMarkers_range_witness :
    (∀ p ∈ ([some (JSVal.num 0, JSVal.num 0),
        some (JSVal.num 0, JSVal.num (180 / (6371 * Real.pi)))] : List RawPoint),
      numericPred p) ∧
    2 ≤ ([some (JSVal.num 0, JSVal.num 0),
        some (JSVal.num 0, JSVal.num (180 / (6371 * Real.pi)))] : List RawPoint).length ∧
    (1 : ℕ) ≤ 1 ∧
    totalTrackLength (([some (JSVal.num 0, JSVal.num 0),
        some (JSVal.num 0, JSVal.num (180 / (6371 * Real.pi)))] : List RawPoint).map
          toPoint) = ((1 : ℕ) : ℝ) ∧
    (generateKilometerMarkers [some (JSVal.num 0, JSVal.num 0),
        some (JSVal.num 0, JSVal.num (180 / (6371 * Real.pi)))] "red").map
      (·.kilometer) = List.range' 1 1 := by
  have hval : ∀ p ∈ ([some (JSVal.num 0, JSVal.num 0),
      some (JSVal.num 0, JSVal.num (180 / (6371 * Real.pi)))] : List RawPoint),
      numericPred p := by
    intro p hp
    rcases List.mem_cons.mp hp with rfl | hp
    · exact ⟨rfl, rfl, rfl, rfl⟩
    rcases List.mem_cons.mp hp with rfl | hp
    · exact ⟨rfl, rfl, rfl, rfl⟩
    · cases hp
  have hpi := Real.pi_pos
  have hd0 : (0 : ℝ) ≤ 180 / (6371 * Real.pi) := by positivity
  have hd90 : (180 : ℝ) / (6371 * Real.pi) ≤ 90 := by
    rw [div_le_iff₀ (by positivity)]
    nlinarith [Real.pi_gt_three]
  have hsum : totalTrackLength (([some (JSVal.num 0, JSVal.num 0),
      some (JSVal.num 0, JSVal.num (180 / (6371 * Real.pi)))] : List RawPoint).map
        toPoint) = ((1 : ℕ) : ℝ) := by
    show totalTrackLength [(⟨0, 0⟩ : Point), ⟨0, 180 / (6371 * Real.pi)⟩] = _
    simp only [totalTrackLength, pathLength]
    have h := calculateDistance_equator 0 (180 / (6371 * Real.pi)) hd0 hd90
    rw [show (0 : ℝ) + 180 / (6371 * Real.pi) = 180 / (6371 * Real.pi) from by
      ring] at h
    rw [h]
    push_cast
    field_simp
    ring
  exact ⟨hval, by simp, le_refl 1, hsum,
    generateKilometerMarkers_range _ "red" 1 hval (by simp) (le_refl 1) hsum⟩

theorem validate_single_near :
    validateRoutePoints [some (JSVal.num 0, JSVal.num 0)] = [(⟨0, 0⟩ : Point)] := by
  rw [validateRoutePoints_all_valid _ (fun p hp => by
    rcases List.mem_cons.mp hp with rfl | hp
    · exact validPred_num (by norm_num) (by norm_num)
    · cases hp)]
  rfl

theorem validate_single_far :
    validateRoutePoints [some (JSVal.num 0, JSVal.num 1)] = [(⟨0, 1⟩ : Point)] := by
  rw [validateRoutePoints_all_valid _ (fun p hp => by
    rcases List.mem_cons.mp hp with rfl | hp
    · exact validPred_num (by norm_num) (by norm_num)
    · cases hp)]
  rfl

/-- Witness for C5 at a concrete input: two single-point routes one degree
of longitude apart on the equator (about 111 km). -/
theorem processRoutes_noop_witness :
    (∀ p ∈ (Route.mk [some (JSVal.num 0, JSVal.num 0)]).points, validPred p) ∧
    (∀ p ∈ (Route.mk [some (JSVal.num 0, JSVal.num 1)]).points, validPred p) ∧
    (∀ i j, i < (validateRoutePoints
        (Route.mk [some (JSVal.num 0, JSVal.num 0)]).points).length →
      j < (validateRoutePoints
        (Route.mk [some (JSVal.num 0, JSVal.num 1)]).points).length →
      (max 20 ((Route.mk [some (JSVal.num 0, JSVal.num 0)]).points.length / 50)) ∣ i →
      (max 20 ((Route.mk [some (JSVal.num 0, JSVal.num 0)]).points.length / 50)) ∣ j →
      ¬(calculateDistance
          ((validateRoutePoints
            (Route.mk [some (JSVal.num 0, JSVal.num 0)]).points).getD i ⟨0, 0⟩).lat
          ((validateRoutePoints
            (Route.mk [some (JSVal.num 0, JSVal.num 0)]).points).getD i ⟨0, 0⟩).lon
          ((validateRoutePoints
            (Route.mk [some (JSVal.num 0, JSVal.num 1)]).points).getD j ⟨0, 0⟩).lat
          ((validateRoutePoints
            (Route.mk [some (JSVal.num 0, JSVal.num 1)]).points).getD j ⟨0, 0⟩).lon
          * 1000 < 15)) ∧
    processRoutesForSideBySideRendering
        (Route.mk [some (JSVal.num 0, JSVal.num 0)])
        (Route.mk [some (JSVal.num 0, JSVal.num 1)]) =
      ((Route.mk [some (JSVal.num 0, JSVal.num 0)]).points.map toPoint,
       (Route.mk [some (JSVal.num 0, JSVal.num 1)]).points.map toPoint) := by
  have h1 : ∀ p ∈ (Route.mk [some (JSVal.num 0, JSVal.num 0)]).points, validPred p := by
    intro p hp
    rcases List.mem_cons.mp hp with rfl | hp
    · exact validPred_num (by norm_num) (by norm_num)
    · cases hp
  have h2 : ∀ p ∈ (Route.mk [some (JSVal.num 0, JSVal.num 1)]).points, validPred p := by
    intro p hp
    rcases List.mem_cons.mp hp with rfl | hp
    · exact validPred_num (by norm_num) (by norm_num)
    · cases hp
  have hfar : ∀ i j, i < (validateRoutePoints
        (Route.mk [some (JSVal.num 0, JSVal.num 0)]).points).length →
      j < (validateRoutePoints
        (Route.mk [some (JSVal.num 0, JSVal.num 1)]).points).length →
      (max 20 ((Route.mk [some (JSVal.num 0, JSVal.num 0)]).points.length / 50)) ∣ i →
      (max 20 ((Route.mk [some (JSVal.num 0, JSVal.num 0)]).points.length / 50)) ∣ j →
      ¬(calculateDistance
          ((validateRoutePoints
            (Route.mk [some (JSVal.num 0, JSVal.num 0)]).points).getD i ⟨0, 0⟩).lat
          ((validateRoutePoints
            (Route.mk [some (JSVal.num 0, JSVal.num 0)]).points).getD i ⟨0, 0⟩).lon
          ((validateRoutePoints
            (Route.mk [some (JSVal.num 0, JSVal.num 1)]).points).getD j ⟨0, 0⟩).lat
          ((validateRoutePoints
            (Route.mk [some (JSVal.num 0, JSVal.num 1)]).points).getD j ⟨0, 0⟩).lon
          * 1000 < 15) := by
    intro i j hi hj _ _
    rw [validate_single_near] at hi ⊢
    rw [validate_single_far] at hj ⊢
    simp only [List.length_cons, List.length_nil] at hi hj
    have hi0 : i = 0 := by omega
    have hj0 : j = 0 := by omega
    subst hi0 hj0
    simp only [List.getD_cons_zero]
    exact far_one_degree
  exact ⟨h1, h2, hfar, processRoutes_noop _ _ h1 h2 hfar⟩

/-- Witness for C6 at a concrete input: two identical single-point routes
(distance 0 < 15 m, so the overlap flag is set). -/
theorem processRoutes_offsets_witness :
    ((validateRoutePoints (Route.mk [some (JSVal.num 0, JSVal.num 0)]).points).length ≠ 0) ∧
    (hasSignificantOverlap
      (validateRoutePoints (Route.mk [some (JSVal.num 0, JSVal.num 0)]).points)
      (validateRoutePoints (Route.mk [some (JSVal.num 0, JSVal.num 0)]).points)
      (max 20 ((Route.mk [some (JSVal.num 0, JSVal.num 0)]).points.length / 50)) = true) ∧
    processRoutesForSideBySideRendering
        (Route.mk [some (JSVal.num 0, JSVal.num 0)])
        (Route.mk [some (JSVal.num 0, JSVal.num 0)]) =
      ((validateRoutePoints (Route.mk [some (JSVal.num 0, JSVal.num 0)]).points).map
        fun pt => calculateOffsetPoint pt.lat pt.lon
          (calculateBearing
            (toPoint ((Route.mk [some (JSVal.num 0, JSVal.num 0)]).points.getD 0 none)).lat
            (toPoint ((Route.mk [some (JSVal.num 0, JSVal.num 0)]).points.getD 0 none)).lon
            (toPoint ((Route.mk [some (JSVal.num 0, JSVal.num 0)]).points.getD
              ((Route.mk [some (JSVal.num 0, JSVal.num 0)]).points.length - 1) none)).lat
            (toPoint ((Route.mk [some (JSVal.num 0, JSVal.num 0)]).points.getD
              ((Route.mk [some (JSVal.num 0, JSVal.num 0)]).points.length - 1) none)).lon)
          (-4),
       (validateRoutePoints (Route.mk [some (JSVal.num 0, JSVal.num 0)]).points).map
        fun pt => calculateOffsetPoint pt.lat pt.lon
          (calculateBearing
            (toPoint ((Route.mk [some (JSVal.num 0, JSVal.num 0)]).points.getD 0 none)).lat
            (toPoint ((Route.mk [some (JSVal.num 0, JSVal.num 0)]).points.getD 0 none)).lon
            (toPoint ((Route.mk [some (JSVal.num 0, JSVal.num 0)]).points.getD
              ((Route.mk [some (JSVal.num 0, JSVal.num 0)]).points.length - 1) none)).lat
            (toPoint ((Route.mk [some (JSVal.num 0, JSVal.num 0)]).points.getD
              ((Route.mk [some (JSVal.num 0, JSVal.num 0)]).points.length - 1) none)).lon)
          4) := by
  have hn : (validateRoutePoints
      (Route.mk [some (JSVal.num 0, JSVal.num 0)]).points).length ≠ 0 := by
    rw [validate_single_near]
    simp
  have hflag : hasSignificantOverlap
      (validateRoutePoints (Route.mk [some (JSVal.num 0, JSVal.num 0)]).points)
      (validateRoutePoints (Route.mk [some (JSVal.num 0, JSVal.num 0)]).points)
      (max 20 ((Route.mk [some (JSVal.num 0, JSVal.num 0)]).points.length / 50)) = true := by
    rw [validate_single_near]
    refine (hasSignificantOverlap_iff _ _ _ (by omega)).mpr ⟨0, 0, ?_, ?_, ?_, ?_, ?_⟩
    · simp
    · simp
    · exact dvd_zero _
    · exact dvd_zero _
    · simp only [List.getD_cons_zero]
      rw [calculateDistance_self]
      norm_num
  exact ⟨hn, hflag, processRoutes_offsets _ _ hn hn hflag⟩

/-! ### C7 counterexample: the stride for the second track is computed
from the FIRST track's point count, not the second track's own. -/

/-- A raw point far from the origin (one degree of longitude away). -/
def farRaw : RawPoint := some (.num 0, .num 1)

/-- A raw point at the origin. -/
def nearRaw : RawPoint := some (.num 0, .num 0)

/-- First route: a single point at the origin, so the stride is
`max 20 (1/50) = 20`. -/
def strideRoute1 : Route := ⟨[nearRaw]⟩

/-- Second route: 1050 points, all far except index 20.  Its own stride
would be `max 20 (1050/50) = 21`, which skips index 20; the code's stride
(20, from route 1) samples it. -/
def strideRoute2 : Route :=
  ⟨List.replicate 20 farRaw ++ nearRaw :: List.replicate 1029 farRaw⟩

theorem validate_strideRoute2 :
    validateRoutePoints strideRoute2.points =
      List.replicate 20 (⟨0, 1⟩ : Point) ++
        (⟨0, 0⟩ : Point) :: List.replicate 1029 (⟨0, 1⟩ : Point) := by
  rw [validateRoutePoints_all_valid _ (fun p hp => by
    simp only [strideRoute2, List.mem_append, List.mem_replicate,
      List.mem_cons] at hp
    rcases hp with ⟨-, rfl⟩ | rfl | ⟨-, rfl⟩
    · exact validPred_num (by norm_num) (by norm_num)
    · exact validPred_num (by norm_num) (by norm_num)
    · exact validPred_num (by norm_num) (by norm_num))]
  simp only [strideRoute2, List.map_append, List.map_replicate, List.map_cons]
  rfl

theorem validate_strideRoute1 :
    validateRoutePoints strideRoute1.points = [(⟨0, 0⟩ : Point)] :=
  validate_single_near

theorem strideRoute2_getD_far {j : ℕ} (hj : j < 1050) (hj20 : j ≠ 20) :
    (List.replicate 20 (⟨0, 1⟩ : Point) ++
      (⟨0, 0⟩ : Point) :: List.replicate 1029 (⟨0, 1⟩ : Point)).getD j ⟨0, 0⟩ =
    (⟨0, 1⟩ : Point) := by
  rw [List.getD_eq_getElem?_getD]
  by_cases hlt : j < 20
  · rw [List.getElem?_append_left (by simpa using hlt)]
    rw [List.getElem?_replicate, if_pos hlt]
    rfl
  · have h21 : 21 ≤ j := by omega
    rw [List.getElem?_append_right (by simpa using not_lt.mp hlt)]
    rw [List.length_replicate]
    have : j - 20 = (j - 21) + 1 := by omega
    rw [this, List.getElem?_cons_succ]
    rw [List.getElem?_replicate, if_pos (by omega)]
    rfl

set_option maxRecDepth 4000 in
theorem strideRoute2_getD_near :
    (List.replicate 20 (⟨0, 1⟩ : Point) ++
      (⟨0, 0⟩ : Point) :: List.replicate 1029 (⟨0, 1⟩ : Point)).getD 20 ⟨0, 0⟩ =
    (⟨0, 0⟩ : Point) := by
  rw [List.getD_eq_getElem?_getD]
  rw [List.getElem?_append_right (by rw [List.length_replicate])]
  rw [List.length_replicate, Nat.sub_self, List.getElem?_cons_zero]
  rfl

/-- Counterexample for C7 as stated: with `strideRoute1` (1 point) and
`strideRoute2` (1050 points), the code flags the pair as overlapping (its
single stride `max 20 (1/50) = 20`, computed from route 1 alone, samples
route 2's index 20, which coincides with route 1's point), but no pair
sampled at each track's OWN stride (`20` for route 1, `21` for route 2) is
within 15 m — so the claimed equivalence is false. -/
theorem overlap_stride_claim_counterexample :
    ¬(hasSignificantOverlap (validateRoutePoints strideRoute1.points)
        (validateRoutePoints strideRoute2.points)
        (max 20 (strideRoute1.points.length / 50)) = true ↔
      ∃ i j, i < (validateRoutePoints strideRoute1.points).length ∧
        j < (validateRoutePoints strideRoute2.points).length ∧
        (max 20 (strideRoute1.points.length / 50)) ∣ i ∧
        (max 20 (strideRoute2.points.length / 50)) ∣ j ∧
        calculateDistance
          ((validateRoutePoints strideRoute1.points).getD i ⟨0, 0⟩).lat
          ((validateRoutePoints strideRoute1.points).getD i ⟨0, 0⟩).lon
          ((validateRoutePoints strideRoute2.points).getD j ⟨0, 0⟩).lat
          ((validateRoutePoints strideRoute2.points).getD j ⟨0, 0⟩).lon
          * 1000 < 15) := by
  have hlen1 : strideRoute1.points.length = 1 := rfl
  have hlen2 : strideRoute2.points.length = 1050 := by
    show (List.replicate 20 farRaw ++ nearRaw :: List.replicate 1029 farRaw).length = 1050
    rw [List.length_append, List.length_replicate, List.length_cons,
      List.length_replicate]
  have hvlen2 : (List.replicate 20 (⟨0, 1⟩ : Point) ++
      (⟨0, 0⟩ : Point) :: List.replicate 1029 (⟨0, 1⟩ : Point)).length = 1050 := by
    rw [List.length_append, List.length_replicate, List.length_cons,
      List.length_replicate]
  intro hiff
  have hflag : hasSignificantOverlap (validateRoutePoints strideRoute1.points)
      (validateRoutePoints strideRoute2.points)
      (max 20 (strideRoute1.points.length / 50)) = true := by
    rw [validate_strideRoute1, validate_strideRoute2, hlen1]
    refine (hasSignificantOverlap_iff _ _ _ (by omega)).mpr
      ⟨0, 20, by simp, by rw [hvlen2]; omega, dvd_zero _, ?_, ?_⟩
    · show max 20 (1 / 50) ∣ 20
      norm_num
    · rw [List.getD_cons_zero, strideRoute2_getD_near]
      rw [calculateDistance_self]
      norm_num
  obtain ⟨i, j, hi, hj, hdi, hdj, hd⟩ := hiff.mp hflag
  rw [validate_strideRoute1] at hi hd
  rw [validate_strideRoute2] at hj hd
  rw [hlen2] at hdj
  simp only [List.length_cons, List.length_nil] at hi
  have hi0 : i = 0 := by omega
  subst hi0
  rw [hvlen2] at hj
  have hj20 : j ≠ 20 := by
    intro hj20
    subst hj20
    have : (21 : ℕ) ∣ 20 := by simpa using hdj
    omega
  rw [List.getD_cons_zero, strideRoute2_getD_far hj hj20] at hd
  exact far_one_degree hd

end GpxCompare
